import Mathlib

/-!
# mruby-spdy: a verification development for `src/mrb_spdy.c`

The C source is embedded shallowly.

* A C string argument (`const char *uri`) is the list of its characters before the
  terminating NUL.  Heap buffers built by `strcopy` are lists that include the terminator.
* `uint8_t` data is a list of byte values (`Nat`).
* An mruby hash is an insertion-ordered association list keyed by symbol name.
* External libraries (OpenSSL, spdylay, zlib) are not part of the repository: the result of a
  call into them is a parameter of the function that makes the call.
* `mrb_raise` does not return: a function that may raise returns `Except`.
-/

namespace MrbSpdy

/-! ## Host-language values and the response hash -/

/-- The `mrb_value`s built by this file: `nil`, `mrb_fixnum_value`, `mrb_float_value`
(all floats built here are non-negative integers; the field is the number itself) and byte
strings. -/
inductive mrb_value where
  | nil
  | fixnum (n : Int)
  | float (v : Nat)
  | str (bytes : List Nat)
  deriving DecidableEq, Repr

/-- An mruby hash keyed by symbols (`mrb_intern_cstr` of the given name), in insertion order. -/
abbrev mrb_hash := List (String × mrb_value)

/-- The hash made by `mrb_hash_new`. -/
def mrb_hash_new : mrb_hash := []

/-- The effect of `mrb_hash_set`: overwrite the entry of an existing key in place, otherwise
append the new entry. -/
def mrb_hash_set : mrb_hash → String → mrb_value → mrb_hash
  | [], k, v => [(k, v)]
  | (k0, v0) :: h, k, v => if k0 = k then (k, v) :: h else (k0, v0) :: mrb_hash_set h k v

/-- The result of `mrb_hash_get`: the value stored under the key, `nil` when there is none. -/
def mrb_hash_get : mrb_hash → String → mrb_value
  | [], _ => .nil
  | (k0, v0) :: h, k => if k0 = k then v0 else mrb_hash_get h k

/-! ## C strings and buffers -/

/-- The C `strlen` of a buffer: the number of bytes before the first zero byte. -/
def strlen (buf : List Nat) : Nat := (buf.takeWhile (fun b => b != 0)).length

/-- The source's `strcopy(s, len)`: a fresh buffer of `len + 1` cells holding the first `len`
cells of `s` followed by the terminator `nul`. -/
def strcopy {α : Type} (nul : α) (s : List α) (len : Nat) : List α := s.take len ++ [nul]

/-- The string made by `mrb_str_new_cstr(p)`: the bytes of `p` before its first zero byte. -/
def mrb_str_new_cstr (p : List Nat) : List Nat := p.takeWhile (fun b => b != 0)

/-- The C cast `(float)len` of a `size_t`: the nearest number with a 24-bit significand, ties to
even.  Lengths below `2 ^ 24` are represented exactly. -/
def cast_float (n : Nat) : Nat :=
  if n < 2 ^ 24 then n
  else
    let e := Nat.log2 n - 23
    let q := n / 2 ^ e
    let r := n % 2 ^ e
    let half := 2 ^ (e - 1)
    (if half < r ∨ (r = half ∧ q % 2 = 1) then q + 1 else q) * 2 ^ e

/-! ## Connection, session and request -/

/-- The `want_io` enumeration: `IO_NONE`. -/
def IO_NONE : Nat := 0
/-- The `want_io` enumeration: `WANT_READ`. -/
def WANT_READ : Nat := 1
/-- The `want_io` enumeration: `WANT_WRITE`. -/
def WANT_WRITE : Nat := 2

/-- What this file observes of a `spdylay_session`: the stream ids whose user data is the
request (`spdylay_session_get_stream_user_data` is non-NULL exactly for them), the answers of
`spdylay_session_want_read` / `spdylay_session_want_write`, and the resets submitted with
`spdylay_submit_rst_stream`. -/
structure spdylay_session where
  streams : List Int
  want_read : Bool
  want_write : Bool
  rst_streams : List Int
  deriving DecidableEq, Repr

/-- Whether `spdylay_session_get_stream_user_data(session, stream_id)` is non-NULL. -/
def spdylay_session_get_stream_user_data (session : spdylay_session) (stream_id : Int) : Bool :=
  session.streams.contains stream_id

/-- The effect of `spdylay_submit_rst_stream(session, stream_id, SPDYLAY_INTERNAL_ERROR)`. -/
def spdylay_submit_rst_stream (session : spdylay_session) (stream_id : Int) : spdylay_session :=
  { session with rst_streams := session.rst_streams ++ [stream_id] }

/-- The `struct mrb_spdy_conn_t` (the TLS handle is external). -/
structure mrb_spdy_conn_t where
  session : spdylay_session
  want_io : Nat
  response : mrb_hash
  deriving DecidableEq, Repr

/-- The `struct mrb_spdy_request_t`; the string fields are the `strcopy` buffers (terminator
included), `inflater` is `none` for a NULL pointer and otherwise the decompressor state. -/
structure mrb_spdy_request_t (σ : Type) where
  host : List Char
  port : Nat
  path : List Char
  hostport : List Char
  stream_id : Int
  inflater : Option σ

/-! ## Data chunks -/

/-- The scratch buffer size `MAX_OUTLEN`. -/
def MAX_OUTLEN : Nat := 4096

/-- The outcome of one `spdylay_gzip_inflate` call: the return value, the bytes written to
`out` (`outlen` is their number) and the number `tlen` of input bytes consumed. -/
structure gzip_result where
  rv : Int
  out : List Nat
  tlen : Nat
  deriving DecidableEq, Repr

/-- Executions without defined result: `strlen` of a NULL pointer, a `strcat` past the end of
the heap buffer, a `spdylay_gzip_inflate` outcome outside its contract (more output than the
capacity, or more input consumed than given), `mrb_str_concat` on a `body` entry that is not a
string; and the exhaustion of the loop budget of the model. -/
inductive fault where
  | null_strlen
  | heap_overflow
  | bad_inflate
  | bad_value
  | out_of_fuel
  deriving DecidableEq, Repr

/-- The C `strcat(body, merge_body)` on a heap buffer `body`: the string of `merge_body` and
its terminator are written at the terminator of `body`; writing past the allocation is
undefined. -/
def strcat (body merge_body : List Nat) : Except fault (List Nat) :=
  let n := strlen body
  let m := mrb_str_new_cstr merge_body
  if n + m.length + 1 ≤ body.length then
    .ok (body.take n ++ m ++ [0] ++ body.drop (n + m.length + 1))
  else .error .heap_overflow

/-- The `while(len > 0)` loop of `on_data_chunk_recv_callback` under an active decompressor.
`inflate st data outlen` is the external `spdylay_gzip_inflate` on the state `st`, the
remaining input `data` and an output capacity `outlen`.  The result is the decompressor state,
the session and the pointer `body` (`none` is NULL). -/
def inflate_loop {σ : Type} (inflate : σ → List Nat → Nat → gzip_result × σ) (stream_id : Int) :
    Nat → σ → spdylay_session → List Nat → Option (List Nat) →
      Except fault (σ × spdylay_session × Option (List Nat))
  | 0, st, session, data, body =>
    if 0 < data.length then .error .out_of_fuel else .ok (st, session, body)
  | fuel + 1, st, session, data, body =>
    if 0 < data.length then
      let r := inflate st data MAX_OUTLEN
      if r.1.rv = -1 then
        .ok (r.2, spdylay_submit_rst_stream session stream_id, body)
      else if MAX_OUTLEN < r.1.out.length ∨ data.length < r.1.tlen then .error .bad_inflate
      else
        let merge_body := strcopy 0 r.1.out r.1.out.length
        match body with
        | none =>
          inflate_loop inflate stream_id fuel r.2 session (data.drop r.1.tlen) (some merge_body)
        | some b =>
          match strcat b merge_body with
          | .ok b2 =>
            inflate_loop inflate stream_id fuel r.2 session (data.drop r.1.tlen) (some b2)
          | .error e => .error e
    else .ok (st, session, body)

/-- The tail of `on_data_chunk_recv_callback` (source lines 303-313): append the chunk string
to the entry `body` and store `body_length`.  `body` is the local pointer (`none` is NULL). -/
def store_body (response : mrb_hash) (body : Option (List Nat)) : Except fault mrb_hash :=
  let chunk : List Nat := match body with
    | none => []
    | some b => mrb_str_new_cstr b
  let body_data : Except fault mrb_value := match mrb_hash_get response "body" with
    | .nil => .ok (.str chunk)
    | .str s => .ok (.str (s ++ chunk))
    | _ => .error .bad_value
  match body_data, body with
  | .error e, _ => .error e
  | .ok _, none => .error .null_strlen
  | .ok bd, some b =>
    let body_len := mrb_value.fixnum (strlen b)
    .ok (mrb_hash_set (mrb_hash_set response "body" bd) "body_length" body_len)

/-- The source's `on_data_chunk_recv_callback(session, flags, stream_id, data, len, user_data)`
where `len = data.length`, the session is the connection's and the stream user data, when not
NULL, is `req`. -/
def on_data_chunk_recv_callback {σ : Type} (inflate : σ → List Nat → Nat → gzip_result × σ)
    (fuel : Nat) (conn : mrb_spdy_conn_t) (req : mrb_spdy_request_t σ) (stream_id : Int)
    (data : List Nat) : Except fault (mrb_spdy_conn_t × mrb_spdy_request_t σ) :=
  if spdylay_session_get_stream_user_data conn.session stream_id then
    let response := mrb_hash_set conn.response "recieve_bytes" (.float (cast_float data.length))
    match req.inflater with
    | some st =>
      match inflate_loop inflate stream_id fuel st conn.session data none with
      | .error e => .error e
      | .ok (st2, session, body) =>
        match store_body response body with
        | .error e => .error e
        | .ok response2 =>
          .ok ({ conn with session := session, response := response2 },
               { req with inflater := some st2 })
    | none =>
      let body := strcopy 0 data data.length
      match store_body response (some body) with
      | .error e => .error e
      | .ok response2 => .ok ({ conn with response := response2 }, req)
  else .ok (conn, req)

/-- Deliver a sequence of data chunks of stream `stream_id`, one callback per chunk. -/
def recv_chunks {σ : Type} (inflate : σ → List Nat → Nat → gzip_result × σ) (fuel : Nat)
    (stream_id : Int) :
    List (List Nat) → mrb_spdy_conn_t → mrb_spdy_request_t σ →
      Except fault (mrb_spdy_conn_t × mrb_spdy_request_t σ)
  | [], conn, req => .ok (conn, req)
  | data :: rest, conn, req =>
    match on_data_chunk_recv_callback inflate fuel conn req stream_id data with
    | .error e => .error e
    | .ok (conn2, req2) => recv_chunks inflate fuel stream_id rest conn2 req2

/-! ## URI parsing -/

/-- The `struct mrb_spdy_uri_t`.  Each (pointer, length) pair of the C struct is the slice it
addresses; `port` is the `uint16_t` field. -/
structure mrb_spdy_uri_t where
  host : List Char
  port : Nat
  path : List Char
  hostport : List Char
  deriving DecidableEq, Repr

/-- The terminator of a C string. -/
def NUL : Char := Char.ofNat 0

/-- The C expression `uri[i]`, for `i` up to the length (the terminator is read there). -/
def char_at (uri : List Char) (i : Nat) : Char := uri.getD i NUL

/-- The C test `strchr(delims, c) != NULL`: `c` occurs in `delims` or is its terminator. -/
def strchr (delims : List Char) (c : Char) : Bool := c == NUL || delims.contains c

/-- The `len` characters addressed by the pointer `uri + off`. -/
def slice (uri : List Char) (off len : Nat) : List Char := (uri.drop off).take len

/-- The loop `for(i = offset; i < len; ++i) if(stop(uri[i])) break;`: the value of `i` after
it.  The first argument is the text from index `i` to the end. -/
def scan (stop : Char → Bool) : List Char → Nat → Nat
  | [], i => i
  | c :: s, i => if stop c then i else scan stop s (i + 1)

/-- Two's complement reduction of an integer to the range of a 32-bit `int`. -/
def int32 (x : Int) : Int := (x + 2 ^ 31) % 2 ^ 32 - 2 ^ 31

/-- The port loop of `parse_uri` (source lines 603-616) from index `i` with the accumulator
`port`: `none` for `return -1`, otherwise the accumulator and the index after the loop.  The
`int` arithmetic wraps. -/
def scan_port : List Char → Int → Nat → Option (Int × Nat)
  | [], port, i => some (port, i)
  | c :: s, port, i =>
    if strchr "/?#".toList c then some (port, i)
    else if '0' ≤ c ∧ c ≤ '9' then
      let port1 := int32 (port * 10)
      let port2 := int32 (port1 + ((c.toNat : Int) - ('0'.toNat : Int)))
      if 65535 < port2 then none else scan_port s port2 (i + 1)
    else none

/-- The host part of `parse_uri` (source lines 571-593) for `offset = 8`: the offset of
`res->host`, `res->hostlen`, the new `offset` and `ipv6addr`. -/
def scan_host (uri : List Char) (offset : Nat) : Nat × Nat × Nat × Nat :=
  if char_at uri offset = '[' then
    let offset1 := offset + 1
    let i := scan (fun c => c == ']') (uri.drop offset1) offset1
    if i < uri.length then (offset1, i - offset1, i + 1, 1) else (offset1, 0, offset1, 1)
  else
    let i := scan (strchr ":/?#".toList) (uri.drop offset) offset
    (offset, i - offset, i, 0)

/-- The port part of `parse_uri` (source lines 597-623): `none` for `return -1`, otherwise
`res->port` and the new `offset`. -/
def parse_port (uri : List Char) (offset : Nat) : Option (Nat × Nat) :=
  if offset < uri.length ∧ char_at uri offset = ':' then
    match scan_port (uri.drop (offset + 1)) 0 (offset + 1) with
    | none => none
    | some (port, i) => if port = 0 then none else some ((port % 65536).toNat, i)
  else some (443, offset)

/-- The source's `parse_uri(res, uri)`: `none` for the return value `-1`, `some res` for `0`. -/
def parse_uri (uri : List Char) : Option mrb_spdy_uri_t :=
  let len := uri.length
  if len < 9 ∨ uri.take 8 ≠ "https://".toList then none
  else
    let offset := 8
    let hostport := offset
    match scan_host uri offset with
    | (host, hostlen, offset1, ipv6addr) =>
      if hostlen = 0 then none
      else
        match parse_port uri offset1 with
        | none => none
        | some (port, offset2) =>
          let hostportlen := offset2 + ipv6addr - host
          let i := scan (fun c => c == '#') (uri.drop offset2) offset2
          some {
            host := slice uri host hostlen
            port := port
            path := if i - offset2 = 0 then "/".toList else slice uri offset2 (i - offset2)
            hostport := slice uri hostport hostportlen }

/-- The source's `mrb_spdy_request_init`. -/
def mrb_spdy_request_init (σ : Type) (uri : mrb_spdy_uri_t) : mrb_spdy_request_t σ :=
  { host := strcopy NUL uri.host uri.host.length
    port := uri.port
    path := strcopy NUL uri.path uri.path.length
    hostport := strcopy NUL uri.hostport uri.hostport.length
    stream_id := -1
    inflater := none }

/-- The source's `mrb_spdy_client_get` on the argument string `uri`.  The state `w` is the
world outside the function; `lib_init` is the effect of its `sigaction`,
`SSL_load_error_strings` and `SSL_library_init` calls and `fetch_uri` is the source's
`mrb_spdy_fetch_uri`, the one place where a socket is opened.  An `error` is the message of
the raised `RuntimeError`. -/
def mrb_spdy_client_get {ω ρ : Type} (lib_init : ω → ω)
    (fetch_uri : mrb_spdy_uri_t → ω → Except String ρ × ω) (uri : List Char) (w : ω) :
    Except String ρ × ω :=
  let w1 := lib_init w
  match parse_uri uri with
  | none => (.error "parse_uri failed", w1)
  | some uri_data => fetch_uri uri_data w1

/-! ## Frame callbacks -/

/-- The `spdylay_frame_type` enumeration. -/
inductive spdylay_frame_type where
  | SYN_STREAM | SYN_REPLY | RST_STREAM | SETTINGS | NOOP | PING | GOAWAY | HEADERS
  | WINDOW_UPDATE | CREDENTIAL
  deriving DecidableEq, Repr

/-- What `before_ctrl_send_callback` reads of a `spdylay_frame`: `frame->syn_stream.stream_id`. -/
structure spdylay_frame where
  stream_id : Int
  deriving DecidableEq, Repr

/-- The source's `before_ctrl_send_callback(session, type, frame, user_data)`; the stream user
data, when not NULL, is `req`. -/
def before_ctrl_send_callback {σ : Type} (session : spdylay_session) (type : spdylay_frame_type)
    (frame : spdylay_frame) (conn : mrb_spdy_conn_t) (req : mrb_spdy_request_t σ) :
    mrb_spdy_conn_t × mrb_spdy_request_t σ :=
  if type = .SYN_STREAM then
    let stream_id := frame.stream_id
    if spdylay_session_get_stream_user_data session stream_id ∧ req.stream_id = -1 then
      ({ conn with response := mrb_hash_set conn.response "stream_id" (.fixnum stream_id) },
       { req with stream_id := stream_id })
    else (conn, req)
  else (conn, req)

/-- One invocation of `before_ctrl_send_callback` by the protocol engine: the session as it is
at that moment, the frame type and the frame. -/
structure ctrl_event where
  session : spdylay_session
  type : spdylay_frame_type
  frame : spdylay_frame
  deriving DecidableEq, Repr

/-- A sequence of `before_ctrl_send_callback` invocations, in order. -/
def before_ctrl_send_all {σ : Type} :
    List ctrl_event → mrb_spdy_conn_t → mrb_spdy_request_t σ →
      mrb_spdy_conn_t × mrb_spdy_request_t σ
  | [], conn, req => (conn, req)
  | ev :: evs, conn, req =>
    let s := before_ctrl_send_callback ev.session ev.type ev.frame conn req
    before_ctrl_send_all evs s.1 s.2

/-! ## TLS transfer callbacks -/

/-- The constants of the OpenSSL and spdylay headers used by the transfer callbacks. -/
structure io_consts where
  SSL_ERROR_WANT_READ : Int
  SSL_ERROR_WANT_WRITE : Int
  SPDYLAY_ERR_WOULDBLOCK : Int
  SPDYLAY_ERR_EOF : Int
  SPDYLAY_ERR_CALLBACK_FAILURE : Int
  deriving DecidableEq, Repr

/-- The values the constants have in `openssl/ssl.h` and `spdylay/spdylay.h`. -/
def header_consts : io_consts :=
  { SSL_ERROR_WANT_READ := 2
    SSL_ERROR_WANT_WRITE := 3
    SPDYLAY_ERR_WOULDBLOCK := -504
    SPDYLAY_ERR_EOF := -507
    SPDYLAY_ERR_CALLBACK_FAILURE := -902 }

/-- The outcome of the external `SSL_write` / `SSL_read` call: its return value, and the value
`SSL_get_error` gives for it. -/
structure ssl_result where
  rv : Int
  err : Int
  deriving DecidableEq, Repr

/-- The source's `send_callback`, given the outcome `r` of its `SSL_write` call: the return
value and the connection afterwards. -/
def send_callback (k : io_consts) (conn : mrb_spdy_conn_t) (r : ssl_result) :
    Int × mrb_spdy_conn_t :=
  let conn1 := { conn with want_io := IO_NONE }
  if r.rv < 0 then
    if r.err = k.SSL_ERROR_WANT_WRITE ∨ r.err = k.SSL_ERROR_WANT_READ then
      (k.SPDYLAY_ERR_WOULDBLOCK,
       { conn1 with want_io := if r.err = k.SSL_ERROR_WANT_READ then WANT_READ else WANT_WRITE })
    else (k.SPDYLAY_ERR_CALLBACK_FAILURE, conn1)
  else (r.rv, conn1)

/-- The source's `recv_callback`, given the outcome `r` of its `SSL_read` call: the return
value and the connection afterwards. -/
def recv_callback (k : io_consts) (conn : mrb_spdy_conn_t) (r : ssl_result) :
    Int × mrb_spdy_conn_t :=
  let conn1 := { conn with want_io := IO_NONE }
  if r.rv < 0 then
    if r.err = k.SSL_ERROR_WANT_WRITE ∨ r.err = k.SSL_ERROR_WANT_READ then
      (k.SPDYLAY_ERR_WOULDBLOCK,
       { conn1 with want_io := if r.err = k.SSL_ERROR_WANT_READ then WANT_READ else WANT_WRITE })
    else (k.SPDYLAY_ERR_CALLBACK_FAILURE, conn1)
  else if r.rv = 0 then (k.SPDYLAY_ERR_EOF, conn1)
  else (r.rv, conn1)

/-! ## A list view of `parse_uri`

The functions below describe the result of `parse_uri` by splitting the text after the scheme,
without indices; `parse_uri_eq_view` proves that `parse_uri` computes exactly this. -/

/-- The C test `'0' <= c && c <= '9'`. -/
def is_digit (c : Char) : Bool := decide ('0' ≤ c ∧ c ≤ '9')

/-- The number written by the decimal digits `P` after the digits already read as `acc`. -/
def decimal_from (acc : Nat) (P : List Char) : Nat :=
  P.foldl (fun a c => a * 10 + (c.toNat - '0'.toNat)) acc

/-- The number written by the decimal digits `P`. -/
def decimal_value (P : List Char) : Nat := decimal_from 0 P

/-- The host at the head of the text `t` that follows the scheme: the host as written, the
host proper (brackets removed) and the text after it; `none` when `parse_uri` rejects. -/
def host_view (t : List Char) : Option (List Char × List Char × List Char) :=
  match t with
  | [] => none
  | c :: t1 =>
    if c = '[' then
      match t1.dropWhile (fun x => !(x == ']')) with
      | [] => none
      | _ :: t3 =>
        if t1.takeWhile (fun x => !(x == ']')) = [] then none
        else some (c :: t1.takeWhile (fun x => !(x == ']')) ++ [']'],
                   t1.takeWhile (fun x => !(x == ']')), t3)
    else if t.takeWhile (fun x => !strchr ":/?#".toList x) = [] then none
    else some (t.takeWhile (fun x => !strchr ":/?#".toList x),
               t.takeWhile (fun x => !strchr ":/?#".toList x),
               t.dropWhile (fun x => !strchr ":/?#".toList x))

/-- The port at the head of the text `t` that follows the host: the port text as written (with
its colon, empty when there is none), the port and the text after it; `none` when `parse_uri`
rejects. -/
def port_view (t : List Char) : Option (List Char × Nat × List Char) :=
  match t with
  | [] => some ([], 443, [])
  | c :: t4 =>
    if c = ':' then
      if (t4.takeWhile (fun x => !strchr "/?#".toList x)).all is_digit
          ∧ 1 ≤ decimal_value (t4.takeWhile (fun x => !strchr "/?#".toList x))
          ∧ decimal_value (t4.takeWhile (fun x => !strchr "/?#".toList x)) ≤ 65535 then
        some (c :: t4.takeWhile (fun x => !strchr "/?#".toList x),
              decimal_value (t4.takeWhile (fun x => !strchr "/?#".toList x)),
              t4.dropWhile (fun x => !strchr "/?#".toList x))
      else none
    else some ([], 443, t)

/-- The path for the text `t` that follows host and port: `t` up to its first `#`, and `/` when
that is empty. -/
def path_view (t : List Char) : List Char :=
  if t.takeWhile (fun x => !(x == '#')) = [] then "/".toList
  else t.takeWhile (fun x => !(x == '#'))

/-- The result of `parse_uri` described on lists. -/
def parse_view (uri : List Char) : Option mrb_spdy_uri_t :=
  if uri.take 8 = "https://".toList then
    match host_view (uri.drop 8) with
    | none => none
    | some (host_text, host, t3) =>
      match port_view t3 with
      | none => none
      | some (port_text, port, t5) =>
        some { host := host, port := port, path := path_view t5,
               hostport := host_text ++ port_text }
  else none

/-- The unreduced values the port loop of `parse_uri` computes in `int` arithmetic (`port * 10`
and `port + digit` of every round), from the accumulator `port`, along the control flow of
`scan_port`. -/
def port_intermediates : List Char → Int → List Int
  | [], _ => []
  | c :: s, port =>
    if strchr "/?#".toList c then []
    else if '0' ≤ c ∧ c ≤ '9' then
      let port1 := int32 (port * 10)
      let port2 := int32 (port1 + ((c.toNat : Int) - ('0'.toNat : Int)))
      (port * 10) :: (port1 + ((c.toNat : Int) - ('0'.toNat : Int))) ::
        (if 65535 < port2 then [] else port_intermediates s port2)
    else []

/-- A host written without brackets: non-empty, not starting with `[`, and free of `:`, `/`,
`?`, `#` (and of the terminator, as the text is part of a C string). -/
def is_plain_host (t : List Char) : Prop :=
  t ≠ [] ∧ t.head? ≠ some '[' ∧ ∀ c ∈ t, c ∉ ":/?#".toList ∧ c ≠ NUL

/-- A bracketed host literal: `[`, a non-empty content without `]`, and `]`. -/
def is_bracket_host (t : List Char) : Prop :=
  ∃ H, t = '[' :: H ++ [']'] ∧ H ≠ [] ∧ ']' ∉ H

/-- A valid host text: a plain host or a bracketed literal. -/
def is_valid_host (t : List Char) : Prop := is_plain_host t ∨ is_bracket_host t

/-- The host a valid host text denotes: the text itself, or the content of the brackets. -/
def host_of (t : List Char) : List Char :=
  if t.head? = some '[' then (t.drop 1).dropLast else t

/-- The text `r` is empty or begins with one of the characters of `delims`. -/
def starts_with_one_of (delims : List Char) (r : List Char) : Prop :=
  r = [] ∨ ∃ x r2, r = x :: r2 ∧ x ∈ delims

/-- A stream-opening invocation as C8 describes it: a `SYN_STREAM` frame with a positive stream
id that resolves to the request. -/
def opens_stream (ev : ctrl_event) : Bool :=
  ev.type == .SYN_STREAM && decide (0 < ev.frame.stream_id)
    && spdylay_session_get_stream_user_data ev.session ev.frame.stream_id

/-- An invocation for another frame type or for a stream unknown to the session. -/
def other_or_unknown (ev : ctrl_event) : Bool :=
  ev.type != .SYN_STREAM || !spdylay_session_get_stream_user_data ev.session ev.frame.stream_id

/-- What C10 requires of the header constants: the would-block code is negative and differs
from the other two codes, and the two TLS error codes differ. -/
def io_consts.distinct (k : io_consts) : Prop :=
  k.SPDYLAY_ERR_WOULDBLOCK < 0
    ∧ k.SPDYLAY_ERR_WOULDBLOCK ≠ k.SPDYLAY_ERR_EOF
    ∧ k.SPDYLAY_ERR_WOULDBLOCK ≠ k.SPDYLAY_ERR_CALLBACK_FAILURE
    ∧ k.SSL_ERROR_WANT_READ ≠ k.SSL_ERROR_WANT_WRITE

/-- The value of `want_io` C10 describes for the TLS outcome `r`. -/
def expected_want_io (k : io_consts) (r : ssl_result) : Nat :=
  if r.rv < 0 ∧ r.err = k.SSL_ERROR_WANT_READ then WANT_READ
  else if r.rv < 0 ∧ r.err = k.SSL_ERROR_WANT_WRITE then WANT_WRITE
  else IO_NONE

/-! ## The I/O driver -/

/-- The event masks of `poll.h` used by the driver. -/
structure poll_consts where
  POLLIN : Nat
  POLLOUT : Nat
  POLLERR : Nat
  POLLHUP : Nat
  deriving DecidableEq, Repr

/-- The values the masks have in the Linux `poll.h`. -/
def linux_poll_consts : poll_consts :=
  { POLLIN := 1, POLLOUT := 4, POLLERR := 8, POLLHUP := 16 }

/-- What C11 requires of the masks: `POLLIN` and `POLLOUT` are not empty and share no bit. -/
def poll_consts.separate (k : poll_consts) : Prop :=
  k.POLLIN ≠ 0 ∧ k.POLLOUT ≠ 0 ∧ k.POLLIN &&& k.POLLOUT = 0

/-- The `struct pollfd`. -/
structure pollfd where
  fd : Int
  events : Nat
  revents : Nat
  deriving DecidableEq, Repr

/-- The source's `mrb_spdy_ctl_poll(mrb, pollfd, conn)`: the `pollfd` afterwards. -/
def mrb_spdy_ctl_poll (k : poll_consts) (p : pollfd) (conn : mrb_spdy_conn_t) : pollfd :=
  let p0 := { p with events := 0 }
  let p1 :=
    if conn.session.want_read = true ∨ conn.want_io = WANT_READ then
      { p0 with events := p0.events ||| k.POLLIN }
    else p0
  if conn.session.want_write = true ∨ conn.want_io = WANT_WRITE then
    { p1 with events := p1.events ||| k.POLLOUT }
  else p1

/-- The `RuntimeError`s raised by the driver loop of `mrb_spdy_fetch_uri` and by
`mrb_spdy_exec_io`. -/
inductive raised where
  | poll_failed
  | connection_error
  | session_recv (rv : Int)
  | session_send (rv : Int)
  deriving DecidableEq, Repr

/-- The external calls of the driver loop, on a world state `ω`: `poll` on the one descriptor
(its return value and the `revents` it stores), `spdylay_session_recv` and
`spdylay_session_send` (their return value and the connection as their callbacks leave it). -/
structure driver_env (ω : Type) where
  poll : ω → pollfd → Int × Nat × ω
  session_recv : ω → mrb_spdy_conn_t → Int × mrb_spdy_conn_t × ω
  session_send : ω → mrb_spdy_conn_t → Int × mrb_spdy_conn_t × ω

/-- The source's `mrb_spdy_exec_io`. -/
def mrb_spdy_exec_io {ω : Type} (env : driver_env ω) (w : ω) (conn : mrb_spdy_conn_t) :
    Except raised (mrb_spdy_conn_t × ω) :=
  let r := env.session_recv w conn
  if r.1 ≠ 0 then .error (.session_recv r.1)
  else
    let r2 := env.session_send r.2.2 r.2.1
    if r2.1 ≠ 0 then .error (.session_send r2.1)
    else .ok (r2.2.1, r2.2.2)

/-- How a run of the driver loop ends: the loop is left with the session wanting neither to
read nor to write, an error is raised, or the loop budget of the model is used up. -/
inductive driver_outcome where
  | done (conn : mrb_spdy_conn_t)
  | raise (e : raised)
  | out_of_fuel
  deriving DecidableEq, Repr

/-- The `while` loop of `mrb_spdy_fetch_uri` (source lines 535-547) from the connection `conn`
and the `pollfd` `p`: the `events` of every `poll` call, in order, and how the run ends. -/
def driver_loop {ω : Type} (k : poll_consts) (env : driver_env ω) :
    Nat → ω → mrb_spdy_conn_t → pollfd → List Nat × driver_outcome
  | 0, _, conn, _ =>
    if conn.session.want_read = true ∨ conn.session.want_write = true then ([], .out_of_fuel)
    else ([], .done conn)
  | fuel + 1, w, conn, p =>
    if conn.session.want_read = true ∨ conn.session.want_write = true then
      let r := env.poll w p
      let p1 := { p with revents := r.2.1 }
      if r.1 = -1 then ([p.events], .raise .poll_failed)
      else
        match (if p1.revents &&& (k.POLLIN ||| k.POLLOUT) ≠ 0 then mrb_spdy_exec_io env r.2.2 conn
               else .ok (conn, r.2.2)) with
        | .error e => ([p.events], .raise e)
        | .ok (conn2, w2) =>
          if p1.revents &&& k.POLLHUP ≠ 0 ∨ p1.revents &&& k.POLLERR ≠ 0 then
            ([p.events], .raise .connection_error)
          else
            let rest := driver_loop k env fuel w2 conn2 (mrb_spdy_ctl_poll k p1 conn2)
            (p.events :: rest.1, rest.2)
    else ([], .done conn)

/-- The driver part of `mrb_spdy_fetch_uri` (source lines 532-547): `pollfds[0].fd = fd`, the
first `mrb_spdy_ctl_poll` and the loop.  `p` is the `pollfds[0]` before the assignment. -/
def fetch_uri_driver {ω : Type} (k : poll_consts) (env : driver_env ω) (fuel : Nat) (w : ω)
    (conn : mrb_spdy_conn_t) (fd : Int) (p : pollfd) : List Nat × driver_outcome :=
  driver_loop k env fuel w conn (mrb_spdy_ctl_poll k { p with fd := fd } conn)

/-! ## Concrete data used by the evaluations below -/

/-- A session in which stream 1 carries the request. -/
def ex_session : spdylay_session :=
  { streams := [1], want_read := true, want_write := false, rst_streams := [] }

/-- A connection on `ex_session` with an empty response accumulator. -/
def ex_conn : mrb_spdy_conn_t :=
  { session := ex_session, want_io := IO_NONE, response := mrb_hash_new }

/-- A request without decompressor, as `mrb_spdy_request_init` leaves it, after stream 1 was
assigned to it. -/
def ex_req : mrb_spdy_request_t Unit :=
  { mrb_spdy_request_init Unit
      { host := "example.com".toList, port := 443, path := "/".toList,
        hostport := "example.com".toList } with stream_id := 1 }

/-- The request `ex_req` with an active decompressor (of state type `Unit`). -/
def ex_req_gz : mrb_spdy_request_t Unit := { ex_req with inflater := some () }

/-- A decompressor that passes its whole input through in one call. -/
def ex_inflate : Unit → List Nat → Nat → gzip_result × Unit :=
  fun _ data _ => ({ rv := 0, out := data, tlen := data.length }, ())

/-- The response accumulator after a run of data-chunk callbacks, when the run is defined. -/
def response_after {σ : Type} (r : Except fault (mrb_spdy_conn_t × mrb_spdy_request_t σ)) :
    Option mrb_hash :=
  match r with
  | .ok s => some s.1.response
  | .error _ => none

/-- A sequence of invocations on `ex_session`: a `HEADERS` frame, the stream-opening frame of
stream 1, a second `SYN_STREAM` frame of stream 1 and a `SYN_STREAM` frame of the unknown
stream 3. -/
def ex_events : List ctrl_event :=
  [ { session := ex_session, type := .HEADERS, frame := { stream_id := 1 } },
    { session := ex_session, type := .SYN_STREAM, frame := { stream_id := 1 } },
    { session := ex_session, type := .SYN_STREAM, frame := { stream_id := 1 } },
    { session := ex_session, type := .SYN_STREAM, frame := { stream_id := 3 } } ]

/-- The parsed form of `https://example.com/`. -/
def ex_uri : mrb_spdy_uri_t :=
  { host := "example.com".toList, port := 443, path := "/".toList,
    hostport := "example.com".toList }

/-- An environment in which `poll` reports the descriptor readable and writable, the receive
step ends the session's wish to read and the send step its wish to write. -/
def ex_env : driver_env Unit :=
  { poll := fun _ _ => (1, 5, ())
    session_recv := fun _ conn =>
      (0, { conn with session := { conn.session with want_read := false } }, ())
    session_send := fun _ conn =>
      (0, { conn with session := { conn.session with want_write := false } }, ()) }

/-- A `pollfd` with arbitrary earlier contents. -/
def ex_pollfd : pollfd := { fd := 0, events := 7, revents := 7 }

/-! ## The response hash -/

theorem mrb_hash_get_set_same (h : mrb_hash) (k : String) (v : mrb_value) :
    mrb_hash_get (mrb_hash_set h k v) k = v := by
  induction h with
  | nil => simp [mrb_hash_set, mrb_hash_get]
  | cons e h ih =>
    obtain ⟨k0, v0⟩ := e
    by_cases hk : k0 = k
    · simp [mrb_hash_set, mrb_hash_get, hk]
    · simp [mrb_hash_set, mrb_hash_get, hk, ih]

theorem mrb_hash_get_set_other (h : mrb_hash) (k k2 : String) (v : mrb_value) (hne : k ≠ k2) :
    mrb_hash_get (mrb_hash_set h k v) k2 = mrb_hash_get h k2 := by
  induction h with
  | nil => simp [mrb_hash_set, mrb_hash_get, hne]
  | cons e h ih =>
    obtain ⟨k0, v0⟩ := e
    by_cases hk : k0 = k
    · subst hk
      simp [mrb_hash_set, mrb_hash_get, hne]
    · by_cases hk2 : k0 = k2
      · subst hk2
        simp [mrb_hash_set, mrb_hash_get, hk]
      · simp [mrb_hash_set, mrb_hash_get, hk, hk2, ih]

/-! ## Data chunks without decompressor -/

theorem takeWhile_append_zero (l : List Nat) :
    (l ++ [0]).takeWhile (fun b => b != 0) = l.takeWhile (fun b => b != 0) := by
  induction l with
  | nil => simp [List.takeWhile]
  | cons a l ih =>
    by_cases ha : a = 0
    · simp [List.takeWhile, ha]
    · simp [List.takeWhile, ha, ih]

theorem mrb_str_new_cstr_strcopy (data : List Nat) :
    mrb_str_new_cstr (strcopy 0 data data.length) = data.takeWhile (fun b => b != 0) := by
  simp [mrb_str_new_cstr, strcopy, takeWhile_append_zero]

theorem strlen_strcopy (data : List Nat) :
    strlen (strcopy 0 data data.length) = (data.takeWhile (fun b => b != 0)).length := by
  simp [strlen, strcopy, takeWhile_append_zero]

/-- What `store_body` keeps: every entry other than `body` and `body_length`. -/
theorem store_body_other (response response2 : mrb_hash) (body : Option (List Nat)) (k : String)
    (h : store_body response body = .ok response2) (h1 : "body" ≠ k) (h2 : "body_length" ≠ k) :
    mrb_hash_get response2 k = mrb_hash_get response k := by
  unfold store_body at h
  cases body with
  | none =>
    cases hb : mrb_hash_get response "body" <;> simp [hb] at h
  | some b =>
    cases hb : mrb_hash_get response "body" <;> simp [hb] at h <;>
      (subst h; rw [mrb_hash_get_set_other _ _ _ _ h2, mrb_hash_get_set_other _ _ _ _ h1])

/-- The data-chunk callback without decompressor, on a response with the body `prev`
(`none` when the response has no `body` entry yet). -/
theorem on_data_chunk_plain {σ : Type} (inflate : σ → List Nat → Nat → gzip_result × σ)
    (fuel : Nat) (conn : mrb_spdy_conn_t) (req : mrb_spdy_request_t σ) (stream_id : Int)
    (data : List Nat) (prev : Option (List Nat))
    (hk : spdylay_session_get_stream_user_data conn.session stream_id = true)
    (hi : req.inflater = none)
    (hb : mrb_hash_get conn.response "body" = (match prev with
      | none => .nil
      | some s => .str s)) :
    ∃ conn2, on_data_chunk_recv_callback inflate fuel conn req stream_id data = .ok (conn2, req)
      ∧ conn2.session = conn.session
      ∧ mrb_hash_get conn2.response "body"
          = .str (prev.getD [] ++ data.takeWhile (fun b => b != 0))
      ∧ mrb_hash_get conn2.response "body_length"
          = .fixnum ((data.takeWhile (fun b => b != 0)).length : Nat) := by
  have hb2 : mrb_hash_get (mrb_hash_set conn.response "recieve_bytes"
      (.float (cast_float data.length))) "body" = mrb_hash_get conn.response "body" :=
    mrb_hash_get_set_other _ _ _ _ (by decide)
  cases prev with
  | none =>
    simp only at hb
    simp only [on_data_chunk_recv_callback, hk, hi, store_body, hb2, hb, if_true,
      mrb_str_new_cstr_strcopy, strlen_strcopy]
    refine ⟨_, rfl, rfl, ?_, ?_⟩
    · simp only [Option.getD, List.nil_append]
      rw [mrb_hash_get_set_other _ _ _ _ (by decide), mrb_hash_get_set_same]
    · simp only [mrb_hash_get_set_same]
  | some s =>
    simp only at hb
    simp only [on_data_chunk_recv_callback, hk, hi, store_body, hb2, hb, if_true,
      mrb_str_new_cstr_strcopy, strlen_strcopy]
    refine ⟨_, rfl, rfl, ?_, ?_⟩
    · simp only [Option.getD]
      rw [mrb_hash_get_set_other _ _ _ _ (by decide), mrb_hash_get_set_same]
    · simp only [mrb_hash_get_set_same]

/-- Chunks delivered without decompressor to a response that already has a body `s`. -/
theorem recv_chunks_plain {σ : Type} (inflate : σ → List Nat → Nat → gzip_result × σ)
    (fuel : Nat) (req : mrb_spdy_request_t σ) (stream_id : Int) (hi : req.inflater = none)
    (chunks : List (List Nat)) :
    ∀ (conn : mrb_spdy_conn_t) (s : List Nat),
      spdylay_session_get_stream_user_data conn.session stream_id = true →
      mrb_hash_get conn.response "body" = .str s →
      ∃ conn2, recv_chunks inflate fuel stream_id chunks conn req = .ok (conn2, req)
        ∧ mrb_hash_get conn2.response "body"
          = .str (s ++ (chunks.map (List.takeWhile (fun b => b != 0))).flatten) := by
  induction chunks with
  | nil =>
    intro conn s _ hb
    exact ⟨conn, rfl, by simpa using hb⟩
  | cons data rest ih =>
    intro conn s hk hb
    obtain ⟨conn1, h1, hs, hbody, _⟩ :=
      on_data_chunk_plain inflate fuel conn req stream_id data (some s) hk hi hb
    obtain ⟨conn2, h2, hbody2⟩ := ih conn1 _ (hs ▸ hk) hbody
    refine ⟨conn2, ?_, ?_⟩
    · simp only [recv_chunks, h1, h2]
    · simpa [List.append_assoc] using hbody2

/-- The data-chunk callback under a decompressor that takes the whole non-empty chunk in one
call completes. -/
theorem on_data_chunk_inflate_once {σ : Type} (inflate : σ → List Nat → Nat → gzip_result × σ)
    (fuel : Nat) (conn : mrb_spdy_conn_t) (req : mrb_spdy_request_t σ) (stream_id : Int)
    (data : List Nat) (st : σ)
    (hk : spdylay_session_get_stream_user_data conn.session stream_id = true)
    (hi : req.inflater = some st) (hf : 0 < fuel) (hd : data ≠ [])
    (hrv : (inflate st data MAX_OUTLEN).1.rv ≠ -1)
    (hout : (inflate st data MAX_OUTLEN).1.out.length ≤ MAX_OUTLEN)
    (htlen : (inflate st data MAX_OUTLEN).1.tlen = data.length)
    (hb : mrb_hash_get conn.response "body" = .nil ∨
      ∃ s, mrb_hash_get conn.response "body" = .str s) :
    ∃ r, on_data_chunk_recv_callback inflate fuel conn req stream_id data = .ok r := by
  obtain ⟨f, rfl⟩ : ∃ f, fuel = f + 1 := ⟨fuel - 1, by omega⟩
  have hlen : 0 < data.length := List.length_pos.mpr hd
  have hcond : ¬ (MAX_OUTLEN < (inflate st data MAX_OUTLEN).1.out.length
      ∨ data.length < (inflate st data MAX_OUTLEN).1.tlen) := by
    rw [htlen]
    omega
  have hloop : inflate_loop inflate stream_id (f + 1) st conn.session data none
      = .ok ((inflate st data MAX_OUTLEN).2, conn.session,
          some (strcopy 0 (inflate st data MAX_OUTLEN).1.out
            (inflate st data MAX_OUTLEN).1.out.length)) := by
    rw [inflate_loop]
    simp only [hlen, if_true, hrv, if_false, hcond, htlen, List.drop_length]
    cases f with
    | zero => simp [inflate_loop, hout]
    | succ g => simp [inflate_loop, hout]
  have hb2 : mrb_hash_get (mrb_hash_set conn.response "recieve_bytes"
      (.float (cast_float data.length))) "body" = mrb_hash_get conn.response "body" :=
    mrb_hash_get_set_other _ _ _ _ (by decide)
  simp only [on_data_chunk_recv_callback, hk, if_true, hi, hloop]
  rcases hb with hb | ⟨s, hb⟩
  · simp only [store_body, hb2, hb]
    exact ⟨_, rfl⟩
  · simp only [store_body, hb2, hb]
    exact ⟨_, rfl⟩

/-! ## C1 -/

/-- C1, evaluated on the code: two chunks `ab` and `cd` are delivered without decompressor for
the known stream 1 to an empty accumulator.  The accumulated `body` is the four bytes `abcd`,
while the `body_length` entry is 2, the length of the last chunk alone. -/
theorem body_length_is_last_chunk_length :
    (response_after (recv_chunks ex_inflate 0 1 [[97, 98], [99, 100]] ex_conn ex_req)).map
        (fun r => (mrb_hash_get r "body", mrb_hash_get r "body_length"))
      = some (.str [97, 98, 99, 100], .fixnum 2) := by
  decide

/-! ## C2 -/

/-- C2 as stated fails: one chunk `a`, zero byte, `b` delivered without decompressor leaves the
body `a`, not the three bytes of the chunk. -/
theorem body_cut_at_zero_byte :
    (response_after (recv_chunks ex_inflate 0 1 [[97, 0, 98]] ex_conn ex_req)).map
        (fun r => mrb_hash_get r "body") = some (.str [97])
    ∧ (response_after (recv_chunks ex_inflate 0 1 [[97, 0, 98]] ex_conn ex_req)).map
        (fun r => mrb_hash_get r "body") ≠ some (.str ([[97, 0, 98]] : List (List Nat)).flatten) := by
  decide

/-- C2, amended: without decompressor, every non-empty sequence of chunks delivered for the
known stream to a response without body is processed to the end, and the body is then the
concatenation of the chunks, each cut at its first zero byte; when no chunk holds a zero byte
the body is the concatenation of the chunks themselves. -/
theorem body_is_concat_of_chunks {σ : Type} (inflate : σ → List Nat → Nat → gzip_result × σ)
    (fuel : Nat) (conn : mrb_spdy_conn_t) (req : mrb_spdy_request_t σ) (stream_id : Int)
    (chunks : List (List Nat))
    (hk : spdylay_session_get_stream_user_data conn.session stream_id = true)
    (hi : req.inflater = none)
    (hb : mrb_hash_get conn.response "body" = .nil)
    (hne : chunks ≠ []) :
    ∃ conn2, recv_chunks inflate fuel stream_id chunks conn req = .ok (conn2, req)
      ∧ mrb_hash_get conn2.response "body"
          = .str (chunks.map (List.takeWhile (fun b => b != 0))).flatten
      ∧ ((∀ c ∈ chunks, 0 ∉ c) → mrb_hash_get conn2.response "body" = .str chunks.flatten) := by
  cases chunks with
  | nil => exact absurd rfl hne
  | cons data rest =>
    obtain ⟨conn1, h1, hs, hbody, _⟩ :=
      on_data_chunk_plain inflate fuel conn req stream_id data none hk hi hb
    obtain ⟨conn2, h2, hbody2⟩ :=
      recv_chunks_plain inflate fuel req stream_id hi rest conn1 _ (hs ▸ hk) hbody
    have hfin : mrb_hash_get conn2.response "body"
        = .str ((data :: rest).map (List.takeWhile (fun b => b != 0))).flatten := by
      simpa using hbody2
    refine ⟨conn2, ?_, hfin, ?_⟩
    · simp only [recv_chunks, h1, h2]
    · intro hz
      rw [hfin]
      have hmap : (data :: rest).map (List.takeWhile (fun b => b != 0)) = data :: rest := by
        conv_rhs => rw [← List.map_id (data :: rest)]
        apply List.map_congr_left
        intro c hc
        simp only [id]
        rw [List.takeWhile_eq_self_iff]
        intro x hx
        have hx0 : x ≠ 0 := fun h0 => hz c hc (h0 ▸ hx)
        simpa using hx0
      rw [hmap]

/-- Witness of `body_is_concat_of_chunks`: the chunks `ab` and `c` on the example connection. -/
theorem body_is_concat_of_chunks_witness :
    ∃ conn2, recv_chunks ex_inflate 0 1 [[97, 98], [99]] ex_conn ex_req = .ok (conn2, ex_req)
      ∧ mrb_hash_get conn2.response "body"
          = .str ([[97, 98], [99]].map (List.takeWhile (fun b => b != 0))).flatten
      ∧ ((∀ c ∈ [[97, 98], [99]], 0 ∉ c) →
          mrb_hash_get conn2.response "body" = .str [[97, 98], [99]].flatten) :=
  body_is_concat_of_chunks ex_inflate 0 ex_conn ex_req 1 [[97, 98], [99]]
    (by decide) rfl (by decide) (by decide)

/-! ## C9 -/

/-- C9 as stated fails: after a chunk of three bytes for the known stream the accumulator has no
entry named `receive_bytes` (the lookup gives `nil`, not the integer 3); the count is stored
under the key `recieve_bytes`, as the float 3. -/
theorem receive_bytes_entry_absent :
    (response_after (on_data_chunk_recv_callback ex_inflate 0 ex_conn ex_req 1 [1, 2, 3])).map
        (fun r => mrb_hash_get r "receive_bytes") = some .nil
    ∧ (response_after (on_data_chunk_recv_callback ex_inflate 0 ex_conn ex_req 1 [1, 2, 3])).map
        (fun r => mrb_hash_get r "receive_bytes") ≠ some (.fixnum 3)
    ∧ (response_after (on_data_chunk_recv_callback ex_inflate 0 ex_conn ex_req 1 [1, 2, 3])).map
        (fun r => mrb_hash_get r "recieve_bytes") = some (.float 3) := by
  decide

/-- C9, amended: a data-chunk callback for the known stream with a raw chunk of length `n`
leaves, whenever it completes, the entry `recieve_bytes` equal to the float conversion of `n`
(the float `n` itself for `n < 2 ^ 24`), with or without decompressor; it completes, on every
response whose `body` entry is absent or a string, without decompressor and also under a
decompressor that takes the whole non-empty chunk in one call. -/
theorem recieve_bytes_is_chunk_length {σ : Type}
    (inflate : σ → List Nat → Nat → gzip_result × σ) (fuel : Nat) (conn : mrb_spdy_conn_t)
    (req : mrb_spdy_request_t σ) (stream_id : Int) (data : List Nat)
    (hk : spdylay_session_get_stream_user_data conn.session stream_id = true) :
    (∀ r, on_data_chunk_recv_callback inflate fuel conn req stream_id data = .ok r →
        mrb_hash_get r.1.response "recieve_bytes" = .float (cast_float data.length)
        ∧ (data.length < 2 ^ 24 →
            mrb_hash_get r.1.response "recieve_bytes" = .float data.length))
    ∧ (req.inflater = none →
        (mrb_hash_get conn.response "body" = .nil ∨
          ∃ s, mrb_hash_get conn.response "body" = .str s) →
        ∃ r, on_data_chunk_recv_callback inflate fuel conn req stream_id data = .ok r)
    ∧ (∀ st, req.inflater = some st → 0 < fuel → data ≠ [] →
        (inflate st data MAX_OUTLEN).1.rv ≠ -1 →
        (inflate st data MAX_OUTLEN).1.out.length ≤ MAX_OUTLEN →
        (inflate st data MAX_OUTLEN).1.tlen = data.length →
        (mrb_hash_get conn.response "body" = .nil ∨
          ∃ s, mrb_hash_get conn.response "body" = .str s) →
        ∃ r, on_data_chunk_recv_callback inflate fuel conn req stream_id data = .ok r) := by
  refine ⟨?_, ?_, fun st hi hf hd hrv hout htlen hb =>
    on_data_chunk_inflate_once inflate fuel conn req stream_id data st hk hi hf hd hrv hout
      htlen hb⟩
  · intro r hr
    have hmain : mrb_hash_get r.1.response "recieve_bytes" = .float (cast_float data.length) := by
      simp only [on_data_chunk_recv_callback, hk, if_true] at hr
      cases hinf : req.inflater with
      | none =>
        simp only [hinf] at hr
        cases hsb : store_body (mrb_hash_set conn.response "recieve_bytes"
            (.float (cast_float data.length))) (some (strcopy 0 data data.length)) with
        | error e => simp [hsb] at hr
        | ok response2 =>
          simp only [hsb, Except.ok.injEq] at hr
          subst hr
          simp only
          rw [store_body_other _ _ _ _ hsb (by decide) (by decide), mrb_hash_get_set_same]
      | some st =>
        simp only [hinf] at hr
        cases hloop : inflate_loop inflate stream_id fuel st conn.session data none with
        | error e => simp [hloop] at hr
        | ok t =>
          obtain ⟨st2, session, body⟩ := t
          simp only [hloop] at hr
          cases hsb : store_body (mrb_hash_set conn.response "recieve_bytes"
              (.float (cast_float data.length))) body with
          | error e => simp [hsb] at hr
          | ok response2 =>
            simp only [hsb, Except.ok.injEq] at hr
            subst hr
            simp only
            rw [store_body_other _ _ _ _ hsb (by decide) (by decide), mrb_hash_get_set_same]
    refine ⟨hmain, fun hlt => ?_⟩
    rw [hmain, cast_float, if_pos hlt]
  · intro hi hb
    rcases hb with hb | ⟨s, hb⟩
    · obtain ⟨conn2, h, _⟩ :=
        on_data_chunk_plain inflate fuel conn req stream_id data none hk hi hb
      exact ⟨_, h⟩
    · obtain ⟨conn2, h, _⟩ :=
        on_data_chunk_plain inflate fuel conn req stream_id data (some s) hk hi hb
      exact ⟨_, h⟩

/-- Witness of `recieve_bytes_is_chunk_length`: a chunk of three bytes on the example
connection, for the request with the pass-through decompressor. -/
theorem recieve_bytes_is_chunk_length_witness :
    (∀ r, on_data_chunk_recv_callback ex_inflate 1 ex_conn ex_req_gz 1 [1, 2, 3] = .ok r →
        mrb_hash_get r.1.response "recieve_bytes" = .float (cast_float [1, 2, 3].length)
        ∧ ([1, 2, 3].length < 2 ^ 24 →
            mrb_hash_get r.1.response "recieve_bytes" = .float [1, 2, 3].length))
    ∧ (ex_req_gz.inflater = none →
        (mrb_hash_get ex_conn.response "body" = .nil ∨
          ∃ s, mrb_hash_get ex_conn.response "body" = .str s) →
        ∃ r, on_data_chunk_recv_callback ex_inflate 1 ex_conn ex_req_gz 1 [1, 2, 3] = .ok r)
    ∧ (∀ st, ex_req_gz.inflater = some st → 0 < 1 → [1, 2, 3] ≠ [] →
        (ex_inflate st [1, 2, 3] MAX_OUTLEN).1.rv ≠ -1 →
        (ex_inflate st [1, 2, 3] MAX_OUTLEN).1.out.length ≤ MAX_OUTLEN →
        (ex_inflate st [1, 2, 3] MAX_OUTLEN).1.tlen = [1, 2, 3].length →
        (mrb_hash_get ex_conn.response "body" = .nil ∨
          ∃ s, mrb_hash_get ex_conn.response "body" = .str s) →
        ∃ r, on_data_chunk_recv_callback ex_inflate 1 ex_conn ex_req_gz 1 [1, 2, 3] = .ok r) :=
  recieve_bytes_is_chunk_length ex_inflate 1 ex_conn ex_req_gz 1 [1, 2, 3] (by decide)

/-! ## C3 -/

/-- C3: an input that does not begin with `https://` makes `parse_uri` fail, and
`mrb_spdy_client_get` then raises `parse_uri failed`; whatever `mrb_spdy_fetch_uri` would do,
the result and the world are those left by the library set-up alone, so the fetch is not
called. -/
theorem client_get_rejects_other_scheme {ω ρ : Type} (uri : List Char)
    (h : ¬ "https://".toList <+: uri) :
    parse_uri uri = none
    ∧ ∀ (lib_init : ω → ω) (fetch_uri : mrb_spdy_uri_t → ω → Except String ρ × ω) (w : ω),
        mrb_spdy_client_get lib_init fetch_uri uri w = (.error "parse_uri failed", lib_init w) := by
  have hp : parse_uri uri = none := by
    unfold parse_uri
    simp only
    rw [if_pos]
    by_cases ht : uri.take 8 = "https://".toList
    · exact absurd (ht ▸ List.take_prefix 8 uri) h
    · exact Or.inr ht
  refine ⟨hp, fun lib_init fetch_uri w => ?_⟩
  simp only [mrb_spdy_client_get, hp]

/-- Witness of `client_get_rejects_other_scheme`: `http://example.com/` is rejected. -/
theorem client_get_rejects_other_scheme_witness :
    parse_uri "http://example.com/".toList = none
    ∧ ∀ (lib_init : Nat → Nat) (fetch_uri : mrb_spdy_uri_t → Nat → Except String Nat × Nat)
        (w : Nat),
        mrb_spdy_client_get lib_init fetch_uri "http://example.com/".toList w
          = (.error "parse_uri failed", lib_init w) :=
  client_get_rejects_other_scheme "http://example.com/".toList (by decide)

/-! ## C8 -/

/-- Once the request has a stream id other than -1, no invocation changes anything. -/
theorem before_ctrl_send_all_assigned {σ : Type} (evs : List ctrl_event) :
    ∀ (conn : mrb_spdy_conn_t) (req : mrb_spdy_request_t σ), req.stream_id ≠ -1 →
      before_ctrl_send_all evs conn req = (conn, req) := by
  induction evs with
  | nil => intro conn req _; rfl
  | cons ev evs ih =>
    intro conn req hne
    have hstep : before_ctrl_send_callback ev.session ev.type ev.frame conn req = (conn, req) := by
      unfold before_ctrl_send_callback
      split
      · simp [hne]
      · rfl
    simp only [before_ctrl_send_all, hstep]
    exact ih conn req hne

/-- An invocation for another frame type or an unknown stream changes nothing. -/
theorem before_ctrl_send_other {σ : Type} (ev : ctrl_event) (conn : mrb_spdy_conn_t)
    (req : mrb_spdy_request_t σ) (h : other_or_unknown ev = true) :
    before_ctrl_send_callback ev.session ev.type ev.frame conn req = (conn, req) := by
  unfold before_ctrl_send_callback
  simp only [other_or_unknown, Bool.or_eq_true, bne_iff_ne, ne_eq, Bool.not_eq_true'] at h
  rcases h with h | h
  · simp [h]
  · simp [h]

/-- C8: from a request as `mrb_spdy_request_init` leaves it, over any sequence of
`before_ctrl_send_callback` invocations each of which is either stream-opening (a `SYN_STREAM`
frame with a positive id that resolves to the request) or for another frame type or an unknown
stream: the first stream-opening invocation sets the request's `stream_id` and the accumulator's
`stream_id` entry to its frame's id and nothing else changes them afterwards; without such an
invocation nothing changes; and from any state an invocation for another frame type or an
unknown stream changes nothing. -/
theorem stream_id_set_once {σ : Type} (uri : mrb_spdy_uri_t) (conn : mrb_spdy_conn_t)
    (evs : List ctrl_event)
    (hall : ∀ ev ∈ evs, opens_stream ev = true ∨ other_or_unknown ev = true) :
    (match evs.find? opens_stream with
      | none =>
        before_ctrl_send_all evs conn (mrb_spdy_request_init σ uri)
          = (conn, mrb_spdy_request_init σ uri)
      | some ev =>
        before_ctrl_send_all evs conn (mrb_spdy_request_init σ uri)
          = ({ conn with
                response := mrb_hash_set conn.response "stream_id" (.fixnum ev.frame.stream_id) },
             { mrb_spdy_request_init σ uri with stream_id := ev.frame.stream_id })
        ∧ (before_ctrl_send_all evs conn (mrb_spdy_request_init σ uri)).2.stream_id
            = ev.frame.stream_id
        ∧ mrb_hash_get
            (before_ctrl_send_all evs conn (mrb_spdy_request_init σ uri)).1.response "stream_id"
            = .fixnum ev.frame.stream_id)
    ∧ ∀ (ev : ctrl_event) (c : mrb_spdy_conn_t) (r : mrb_spdy_request_t σ),
        other_or_unknown ev = true →
        before_ctrl_send_callback ev.session ev.type ev.frame c r = (c, r) := by
  refine ⟨?_, fun ev c r h => before_ctrl_send_other ev c r h⟩
  induction evs with
  | nil => simp [before_ctrl_send_all]
  | cons ev evs ih =>
    by_cases ho : opens_stream ev = true
    · have ho2 := ho
      simp only [opens_stream, Bool.and_eq_true, beq_iff_eq, decide_eq_true_eq] at ho2
      obtain ⟨⟨ht, hpos⟩, hknown⟩ := ho2
      have hstep : before_ctrl_send_callback ev.session ev.type ev.frame conn
          (mrb_spdy_request_init σ uri)
          = ({ conn with
                response := mrb_hash_set conn.response "stream_id" (.fixnum ev.frame.stream_id) },
             { mrb_spdy_request_init σ uri with stream_id := ev.frame.stream_id }) := by
        simp [before_ctrl_send_callback, ht, hknown, mrb_spdy_request_init]
      have hrun : before_ctrl_send_all (ev :: evs) conn (mrb_spdy_request_init σ uri)
          = ({ conn with
                response := mrb_hash_set conn.response "stream_id" (.fixnum ev.frame.stream_id) },
             { mrb_spdy_request_init σ uri with stream_id := ev.frame.stream_id }) := by
        simp only [before_ctrl_send_all, hstep]
        apply before_ctrl_send_all_assigned
        simp only
        omega
      simp only [List.find?, ho]
      rw [hrun]
      exact ⟨rfl, rfl, mrb_hash_get_set_same _ _ _⟩
    · have hother : other_or_unknown ev = true := by
        rcases hall ev (List.mem_cons_self _ _) with h | h
        · exact absurd h ho
        · exact h
      have hstep := before_ctrl_send_other ev conn (mrb_spdy_request_init σ uri) hother
      have hf : opens_stream ev = false := by simpa using ho
      simp only [List.find?, hf, before_ctrl_send_all, hstep]
      exact ih (fun e he => hall e (List.mem_cons_of_mem _ he))

/-- Witness of `stream_id_set_once`: on `ex_events` the id 1 of the first stream-opening frame
is recorded and kept. -/
theorem stream_id_set_once_witness :
    (before_ctrl_send_all ex_events ex_conn (mrb_spdy_request_init Unit ex_uri)).2.stream_id = 1
    ∧ mrb_hash_get
        (before_ctrl_send_all ex_events ex_conn (mrb_spdy_request_init Unit ex_uri)).1.response
        "stream_id" = .fixnum 1 :=
  ((stream_id_set_once ex_uri ex_conn ex_events (by decide)).1).2

/-! ## C10 -/

/-- C10: for `send_callback` and `recv_callback` alike and every outcome of the TLS call, the
return value is the would-block code exactly when the TLS result is negative with error
want-read or want-write; afterwards `want_io` is `WANT_READ` for want-read, `WANT_WRITE` for
want-write and `IO_NONE` in every other case; and a negative result with any other error is
returned as the callback-failure code. -/
theorem transfer_callbacks_would_block (k : io_consts) (conn : mrb_spdy_conn_t) (r : ssl_result)
    (hk : k.distinct) :
    (((send_callback k conn r).1 = k.SPDYLAY_ERR_WOULDBLOCK
        ↔ (r.rv < 0 ∧ (r.err = k.SSL_ERROR_WANT_READ ∨ r.err = k.SSL_ERROR_WANT_WRITE)))
      ∧ (send_callback k conn r).2.want_io = expected_want_io k r
      ∧ (r.rv < 0 → r.err ≠ k.SSL_ERROR_WANT_READ → r.err ≠ k.SSL_ERROR_WANT_WRITE →
          (send_callback k conn r).1 = k.SPDYLAY_ERR_CALLBACK_FAILURE))
    ∧ (((recv_callback k conn r).1 = k.SPDYLAY_ERR_WOULDBLOCK
        ↔ (r.rv < 0 ∧ (r.err = k.SSL_ERROR_WANT_READ ∨ r.err = k.SSL_ERROR_WANT_WRITE)))
      ∧ (recv_callback k conn r).2.want_io = expected_want_io k r
      ∧ (r.rv < 0 → r.err ≠ k.SSL_ERROR_WANT_READ → r.err ≠ k.SSL_ERROR_WANT_WRITE →
          (recv_callback k conn r).1 = k.SPDYLAY_ERR_CALLBACK_FAILURE)) := by
  obtain ⟨hneg, hne_eof, hne_fail, hne_rw⟩ := hk
  by_cases hrv : r.rv < 0
  · by_cases hr : r.err = k.SSL_ERROR_WANT_READ
    · simp [send_callback, recv_callback, expected_want_io, hrv, hr]
    · by_cases hw : r.err = k.SSL_ERROR_WANT_WRITE
      · have hwr : ¬ k.SSL_ERROR_WANT_WRITE = k.SSL_ERROR_WANT_READ := fun h => hne_rw h.symm
        simp [send_callback, recv_callback, expected_want_io, hrv, hw, hwr]
      · have h1 : ¬ k.SPDYLAY_ERR_CALLBACK_FAILURE = k.SPDYLAY_ERR_WOULDBLOCK :=
          fun h => hne_fail h.symm
        simp [send_callback, recv_callback, expected_want_io, hrv, hr, hw, h1]
  · have hge : 0 ≤ r.rv := not_lt.mp hrv
    have h1 : ¬ r.rv = k.SPDYLAY_ERR_WOULDBLOCK := by omega
    have h2 : ¬ k.SPDYLAY_ERR_EOF = k.SPDYLAY_ERR_WOULDBLOCK := fun h => hne_eof h.symm
    by_cases h0 : r.rv = 0
    · simp [send_callback, recv_callback, expected_want_io, hrv, h0, h2]
      omega
    · simp [send_callback, recv_callback, expected_want_io, hrv, h0, h1]

/-- Witness of `transfer_callbacks_would_block`: the header constants, and a read that
returned -1 with `SSL_ERROR_WANT_READ`. -/
theorem transfer_callbacks_would_block_witness :
    (((send_callback header_consts ex_conn { rv := -1, err := 2 }).1 = -504
        ↔ ((-1 : Int) < 0 ∧ ((2 : Int) = 2 ∨ (2 : Int) = 3)))
      ∧ (send_callback header_consts ex_conn { rv := -1, err := 2 }).2.want_io = WANT_READ
      ∧ ((-1 : Int) < 0 → (2 : Int) ≠ 2 → (2 : Int) ≠ 3 →
          (send_callback header_consts ex_conn { rv := -1, err := 2 }).1 = -902))
    ∧ (((recv_callback header_consts ex_conn { rv := -1, err := 2 }).1 = -504
        ↔ ((-1 : Int) < 0 ∧ ((2 : Int) = 2 ∨ (2 : Int) = 3)))
      ∧ (recv_callback header_consts ex_conn { rv := -1, err := 2 }).2.want_io = WANT_READ
      ∧ ((-1 : Int) < 0 → (2 : Int) ≠ 2 → (2 : Int) ≠ 3 →
          (recv_callback header_consts ex_conn { rv := -1, err := 2 }).1 = -902)) :=
  transfer_callbacks_would_block header_consts ex_conn { rv := -1, err := 2 }
    (by simp [io_consts.distinct, header_consts])

/-! ## Scanning lemmas -/

theorem scan_eq (stop : Char → Bool) (s : List Char) :
    ∀ i, scan stop s i = i + (s.takeWhile (fun c => !stop c)).length := by
  induction s with
  | nil => intro i; simp [scan]
  | cons c s ih =>
    intro i
    by_cases h : stop c = true
    · simp [scan, h]
    · simp [scan, h, ih]; omega

theorem drop_takeWhile_length (p : Char → Bool) (l : List Char) :
    l.drop (l.takeWhile p).length = l.dropWhile p := by
  induction l with
  | nil => simp
  | cons c l ih =>
    by_cases h : p c = true
    · simp [List.takeWhile, List.dropWhile, h, ih]
    · simp [List.takeWhile, List.dropWhile, h]

theorem take_takeWhile_length (p : Char → Bool) (l : List Char) :
    l.take (l.takeWhile p).length = l.takeWhile p := by
  induction l with
  | nil => simp
  | cons c l ih =>
    by_cases h : p c = true
    · simp [List.takeWhile, h, ih]
    · simp [List.takeWhile, h]

theorem char_at_eq (uri : List Char) (i : Nat) :
    char_at uri i = ((uri.drop i).head?).getD NUL := by
  simp [char_at, List.head?_drop]

theorem zero_le_char (c : Char) : '0' ≤ c ↔ 48 ≤ c.toNat := by
  rw [Char.le_def, UInt32.le_def]
  simp [Char.toNat, UInt32.toNat]
  rfl

theorem char_le_nine (c : Char) : c ≤ '9' ↔ c.toNat ≤ 57 := by
  rw [Char.le_def, UInt32.le_def]
  simp [Char.toNat, UInt32.toNat]
  rfl

theorem int32_of_small (x : Int) (h0 : 0 ≤ x) (h1 : x < 2147483648) : int32 x = x := by
  unfold int32
  norm_num
  omega

theorem le_decimal_from (P : List Char) : ∀ acc, acc ≤ decimal_from acc P := by
  induction P with
  | nil => intro acc; simp [decimal_from]
  | cons c P ih =>
    intro acc
    have h := ih (acc * 10 + (c.toNat - '0'.toNat))
    simp only [decimal_from, List.foldl_cons] at h ⊢
    omega

theorem decimal_from_cons (acc : Nat) (c : Char) (P : List Char) :
    decimal_from acc (c :: P) = decimal_from (acc * 10 + (c.toNat - '0'.toNat)) P := rfl

theorem scan_port_cons (c : Char) (s : List Char) (port : Int) (i : Nat) :
    scan_port (c :: s) port i
      = if strchr "/?#".toList c then some (port, i)
        else if '0' ≤ c ∧ c ≤ '9' then
          if 65535 < int32 (int32 (port * 10) + ((c.toNat : Int) - ('0'.toNat : Int))) then none
          else scan_port s (int32 (int32 (port * 10) + ((c.toNat : Int) - ('0'.toNat : Int))))
            (i + 1)
        else none := rfl

/-- The port loop in closed form: with `P` the text up to the next `/`, `?`, `#` (or
terminator), the loop succeeds exactly when `P` is all digits and the number read stays within
65535, and then returns that number and the index after `P`. -/
theorem scan_port_eq (s : List Char) :
    ∀ (acc i : Nat), acc ≤ 65535 →
      scan_port s (acc : Int) i
        = if (s.takeWhile (fun x => !strchr "/?#".toList x)).all is_digit = true
              ∧ decimal_from acc (s.takeWhile (fun x => !strchr "/?#".toList x)) ≤ 65535 then
            some ((decimal_from acc (s.takeWhile (fun x => !strchr "/?#".toList x)) : Int),
                  i + (s.takeWhile (fun x => !strchr "/?#".toList x)).length)
          else none := by
  induction s with
  | nil =>
    intro acc i hacc
    simp [scan_port, decimal_from, hacc]
  | cons c s ih =>
    intro acc i hacc
    rw [scan_port_cons]
    by_cases hd : strchr "/?#".toList c = true
    · have htw : (c :: s).takeWhile (fun x => !strchr "/?#".toList x) = [] := by
        rw [List.takeWhile_cons]
        simp only [hd, Bool.not_true, Bool.false_eq_true, if_false]
      rw [if_pos hd, htw]
      simp [decimal_from, hacc]
    · have htw : (c :: s).takeWhile (fun x => !strchr "/?#".toList x)
          = c :: s.takeWhile (fun x => !strchr "/?#".toList x) := by
        rw [List.takeWhile_cons]
        simp only [hd, Bool.not_false, if_true]
      rw [if_neg hd, htw]
      by_cases hdig : '0' ≤ c ∧ c ≤ '9'
      · have h48 : 48 ≤ c.toNat := (zero_le_char c).mp hdig.1
        have h57 : c.toNat ≤ 57 := (char_le_nine c).mp hdig.2
        have hz : '0'.toNat = 48 := rfl
        have e1 : int32 ((acc : Int) * 10) = (acc : Int) * 10 :=
          int32_of_small _ (by omega) (by omega)
        have e2 : int32 ((acc : Int) * 10 + ((c.toNat : Int) - ('0'.toNat : Int)))
            = ((acc * 10 + (c.toNat - '0'.toNat) : Nat) : Int) := by
          rw [int32_of_small _ (by omega) (by omega)]
          omega
        have hisd : is_digit c = true := by simp [is_digit, hdig]
        rw [if_pos hdig, e1, e2, decimal_from_cons]
        simp only [List.all_cons, hisd, Bool.true_and, List.length_cons]
        by_cases hbig : 65535 < acc * 10 + (c.toNat - '0'.toNat)
        · have hm := le_decimal_from (s.takeWhile (fun x => !strchr "/?#".toList x))
            (acc * 10 + (c.toNat - '0'.toNat))
          have hbig2 : (65535 : Int) < ((acc * 10 + (c.toNat - '0'.toNat) : Nat) : Int) := by
            omega
          rw [if_pos hbig2, if_neg]
          omega
        · have hbig2 : ¬ (65535 : Int) < ((acc * 10 + (c.toNat - '0'.toNat) : Nat) : Int) := by
            omega
          rw [if_neg hbig2, ih _ (i + 1) (by omega)]
          simp only [Nat.add_assoc, Nat.add_comm 1]
      · have hisd : is_digit c = false := by simp [is_digit, hdig]
        rw [if_neg hdig, if_neg]
        simp [hisd]

theorem dropWhile_head_false (p : Char → Bool) (l : List Char) (x : Char) (r : List Char)
    (h : l.dropWhile p = x :: r) : p x = false := by
  induction l with
  | nil => simp at h
  | cons c l ih =>
    by_cases hc : p c = true
    · rw [List.dropWhile_cons_of_pos hc] at h
      exact ih h
    · rw [List.dropWhile_cons_of_neg hc] at h
      have hx : c = x := (List.cons.inj h).1
      rw [← hx]
      simpa using hc

theorem drop_succ_of_drop_cons (uri : List Char) (off : Nat) (c : Char) (t : List Char)
    (h : uri.drop off = c :: t) : uri.drop (off + 1) = t := by
  have h2 : uri.drop (off + 1) = (uri.drop off).drop 1 := by
    rw [List.drop_drop, Nat.add_comm]
  rw [h2, h]
  rfl

theorem drop_add_of_drop_append (uri : List Char) (off : Nat) (a b : List Char)
    (h : uri.drop off = a ++ b) : uri.drop (off + a.length) = b := by
  have h2 : uri.drop (off + a.length) = (uri.drop off).drop a.length := by
    rw [List.drop_drop, Nat.add_comm]
  rw [h2, h, List.drop_left]

theorem char_at_of_drop_cons (uri : List Char) (off : Nat) (c : Char) (t : List Char)
    (h : uri.drop off = c :: t) : char_at uri off = c := by
  rw [char_at_eq, h]
  rfl

theorem length_of_drop_cons (uri : List Char) (off : Nat) (c : Char) (t : List Char)
    (h : uri.drop off = c :: t) : uri.length = off + 1 + t.length := by
  have h2 := congrArg List.length h
  simp only [List.length_drop, List.length_cons] at h2
  omega

/-- The port part of `parse_uri` at an offset, described on the text from that offset on. -/
theorem parse_port_eq (uri : List Char) (off : Nat) :
    match port_view (uri.drop off) with
    | none => parse_port uri off = none
    | some (port_text, port, t5) =>
      parse_port uri off = some (port, off + port_text.length)
        ∧ uri.drop off = port_text ++ t5 := by
  cases h : uri.drop off with
  | nil =>
    have hlen : ¬ off < uri.length := by
      have h2 := congrArg List.length h
      simp only [List.length_drop, List.length_nil] at h2
      omega
    simp only [port_view, parse_port, hlen, false_and, if_false, List.length_nil, Nat.add_zero,
      List.append_nil, and_self]
  | cons c t4 =>
    have hlen : off < uri.length := by
      have := length_of_drop_cons uri off c t4 h
      omega
    have hc := char_at_of_drop_cons uri off c t4 h
    have hd := drop_succ_of_drop_cons uri off c t4 h
    by_cases hcolon : c = ':'
    · have hsp := scan_port_eq t4 0 (off + 1) (by omega)
      simp only [Nat.cast_zero] at hsp
      simp only [port_view, hcolon, if_true, parse_port, hlen, hc, true_and, hd, hsp,
        decimal_value]
      by_cases hall : (t4.takeWhile (fun x => !strchr "/?#".toList x)).all is_digit = true
      · by_cases hle : decimal_from 0 (t4.takeWhile (fun x => !strchr "/?#".toList x)) ≤ 65535
        · by_cases h1 : 1 ≤ decimal_from 0 (t4.takeWhile (fun x => !strchr "/?#".toList x))
          · have hne : ¬ ((decimal_from 0 (t4.takeWhile (fun x => !strchr "/?#".toList x)) : Nat)
                : Int) = 0 := by omega
            simp only [hall, hle, h1, and_self, if_true, hne, if_false, List.length_cons,
              List.cons_append, List.takeWhile_append_dropWhile, and_true]
            congr 2
            · omega
            · omega
          · have h0 : ((decimal_from 0 (t4.takeWhile (fun x => !strchr "/?#".toList x)) : Nat)
                : Int) = 0 := by omega
            simp only [hall, hle, h1, and_self, if_true, h0, and_false, false_and, if_false]
        · simp only [hall, hle, and_false, if_false]
      · simp only [hall, false_and, if_false, Bool.false_eq_true]
    · have hcolon2 : ¬ (char_at uri off = ':') := by rw [hc]; exact hcolon
      simp only [port_view, hcolon, if_false, parse_port, hcolon2, and_false, List.length_nil,
        Nat.add_zero, List.nil_append, and_self]

/-- The host part of `parse_uri`, described on the text `t` after the scheme. -/
theorem scan_host_eq (uri t : List Char) (ht : uri.drop 8 = t) (hne : t ≠ []) :
    ∃ host hostlen off1 ipv6, scan_host uri 8 = (host, hostlen, off1, ipv6)
      ∧ ipv6 + 8 = host
      ∧ match host_view t with
        | none => hostlen = 0
        | some (host_text, h, t3) =>
          hostlen ≠ 0 ∧ slice uri host hostlen = h ∧ off1 = 8 + host_text.length
            ∧ t = host_text ++ t3 := by
  cases t with
  | nil => exact absurd rfl hne
  | cons c t1 =>
    have hc := char_at_of_drop_cons uri 8 c t1 ht
    have hd := drop_succ_of_drop_cons uri 8 c t1 ht
    have hlen := length_of_drop_cons uri 8 c t1 ht
    by_cases hb : c = '['
    · have hsplit := List.takeWhile_append_dropWhile (fun x => !(x == ']')) t1
      have hl : t1.length = (t1.takeWhile (fun x => !(x == ']'))).length
          + (t1.dropWhile (fun x => !(x == ']'))).length := by
        conv_lhs => rw [← hsplit]
        rw [List.length_append]
      cases hdw : t1.dropWhile (fun x => !(x == ']')) with
      | nil =>
        rw [hdw] at hl
        refine ⟨9, 0, 9, 1, ?_, rfl, ?_⟩
        · simp only [scan_host, hc, hb, if_true, hd, scan_eq]
          rw [if_neg]
          simp only [List.length_nil] at hl
          omega
        · simp only [host_view, hb, if_true, hdw]
      | cons x t3 =>
        rw [hdw] at hl hsplit
        have hx : x = ']' := by
          have := dropWhile_head_false _ _ _ _ hdw
          simpa using this
        refine ⟨9, (t1.takeWhile (fun x => !(x == ']'))).length,
          9 + (t1.takeWhile (fun x => !(x == ']'))).length + 1, 1, ?_, rfl, ?_⟩
        · simp only [scan_host, hc, hb, if_true, hd, scan_eq]
          rw [if_pos]
          · simp
          · simp only [List.length_cons] at hl
            omega
        · simp only [host_view, hb, if_true, hdw]
          by_cases hH : t1.takeWhile (fun x => !(x == ']')) = []
          · simp only [hH, if_true, List.length_nil]
          · simp only [hH, if_false]
            refine ⟨?_, ?_, ?_, ?_⟩
            · intro h0
              exact hH (List.length_eq_zero.mp h0)
            · simp only [slice, hd, take_takeWhile_length]
            · simp only [List.length_cons, List.length_append, List.length_nil]
              omega
            · subst hx
              simp only [List.cons_append, List.append_assoc, List.nil_append]
              rw [hsplit]
    · refine ⟨8, (List.takeWhile (fun x => !strchr ":/?#".toList x) (c :: t1)).length,
        8 + (List.takeWhile (fun x => !strchr ":/?#".toList x) (c :: t1)).length, 0, ?_, rfl, ?_⟩
      · simp only [scan_host, hc, hb, if_false, ht, scan_eq]
        simp
      · simp only [host_view, hb, if_false]
        by_cases hH : List.takeWhile (fun x => !strchr ":/?#".toList x) (c :: t1) = []
        · simp only [hH, if_true, List.length_nil]
        · simp only [hH, if_false]
          refine ⟨?_, ?_, trivial, ?_⟩
          · intro h0
            exact hH (List.length_eq_zero.mp h0)
          · simp only [slice, ht, take_takeWhile_length]
          · exact (List.takeWhile_append_dropWhile _ _).symm

/-- `parse_uri` computes the list view: the index arithmetic of the C function and the
splitting of the text agree on every input. -/
theorem parse_uri_eq_view (uri : List Char) : parse_uri uri = parse_view uri := by
  unfold parse_uri parse_view
  by_cases htk : uri.take 8 = "https://".toList
  · by_cases hlen : uri.length < 9
    · have hl8 : (uri.take 8).length = 8 := by rw [htk]; rfl
      rw [List.length_take] at hl8
      have hd : uri.drop 8 = [] := List.drop_eq_nil_of_le (by omega)
      simp only [hlen, true_or, if_true, htk, hd, host_view]
    · have hne : uri.drop 8 ≠ [] := by
        intro h0
        have := congrArg List.length h0
        simp only [List.length_drop, List.length_nil] at this
        omega
      obtain ⟨host, hostlen, off1, ipv6, hsh, hip, hv⟩ := scan_host_eq uri (uri.drop 8) rfl hne
      have hcond : ¬ (uri.length < 9 ∨ uri.take 8 ≠ "https://".toList) := by
        intro h
        rcases h with h | h
        · exact hlen h
        · exact h htk
      simp only [if_neg hcond, if_pos htk, hsh]
      cases hhv : host_view (uri.drop 8) with
      | none =>
        rw [hhv] at hv
        simp only at hv
        simp only [hv, if_true]
      | some tr =>
        obtain ⟨htxt, h, t3⟩ := tr
        rw [hhv] at hv
        obtain ⟨hl0, hsl, hoff, hsplit⟩ := hv
        have hd3 : uri.drop off1 = t3 := by
          rw [hoff]
          exact drop_add_of_drop_append uri 8 htxt t3 hsplit
        have hpp := parse_port_eq uri off1
        rw [hd3] at hpp
        simp only [if_neg hl0]
        cases hpv : port_view t3 with
        | none =>
          rw [hpv] at hpp
          simp only at hpp
          simp only [hpp]
        | some tr2 =>
          obtain ⟨pt, port, t5⟩ := tr2
          rw [hpv] at hpp
          obtain ⟨hpe, hsplit2⟩ := hpp
          have hd5 : uri.drop (off1 + pt.length) = t5 :=
            drop_add_of_drop_append uri off1 pt t5 (hd3.trans hsplit2)
          have hpath : (if scan (fun c => c == '#') (uri.drop (off1 + pt.length))
                (off1 + pt.length) - (off1 + pt.length) = 0 then "/".toList
              else slice uri (off1 + pt.length)
                (scan (fun c => c == '#') (uri.drop (off1 + pt.length)) (off1 + pt.length)
                  - (off1 + pt.length))) = path_view t5 := by
            rw [scan_eq, Nat.add_sub_cancel_left, hd5]
            unfold path_view
            by_cases hp : t5.takeWhile (fun x => !(x == '#')) = []
            · simp only [hp, List.length_nil, if_true]
            · have hp2 : ¬ (t5.takeWhile (fun x => !(x == '#'))).length = 0 :=
                fun h0 => hp (List.length_eq_zero.mp h0)
              simp only [hp, hp2, if_false, slice, hd5, take_takeWhile_length]
          have hhp : slice uri 8 (off1 + pt.length + ipv6 - host) = htxt ++ pt := by
            have hlenarg : off1 + pt.length + ipv6 - host = (htxt ++ pt).length := by
              rw [List.length_append]
              omega
            have hfull : uri.drop 8 = (htxt ++ pt) ++ t5 := by
              rw [hsplit, hsplit2, List.append_assoc]
            rw [slice, hlenarg, hfull, List.take_left]
          simp only [hpe, hpath, hhp, hsl]
  · have hcond : uri.length < 9 ∨ uri.take 8 ≠ "https://".toList := Or.inr htk
    simp only [if_pos hcond, if_neg htk]

/-! ## The list view on structured input -/

theorem contains_eq_true_iff (delims : List Char) (c : Char) :
    delims.contains c = true ↔ c ∈ delims := by
  simp [List.contains]

theorem strchr_of_mem (delims : List Char) (x : Char) (h : x ∈ delims) :
    strchr delims x = true := by
  rw [strchr, (contains_eq_true_iff delims x).mpr h, Bool.or_true]

theorem strchr_false_iff (delims : List Char) (c : Char) :
    strchr delims c = false ↔ c ∉ delims ∧ c ≠ NUL := by
  rw [strchr, Bool.or_eq_false_iff, ← contains_eq_true_iff, beq_eq_false_iff_ne,
    Bool.not_eq_true]
  exact And.comm

theorem not_strchr_of_free (delims : List Char) (d : Char) (h : d ∉ delims ∧ d ≠ NUL) :
    (!strchr delims d) = true := by
  rw [(strchr_false_iff delims d).mpr h]
  rfl

theorem not_strchr_of_mem (delims : List Char) (x : Char) (h : x ∈ delims) :
    (!strchr delims x) = false := by
  rw [strchr_of_mem delims x h]
  rfl

theorem takeWhile_append_stop (p : Char → Bool) (a r : List Char) (ha : ∀ c ∈ a, p c = true)
    (hr : r = [] ∨ ∃ x r2, r = x :: r2 ∧ p x = false) :
    (a ++ r).takeWhile p = a ∧ (a ++ r).dropWhile p = r := by
  induction a with
  | nil =>
    rcases hr with hr | ⟨x, r2, hr, hx⟩
    · subst hr; simp
    · subst hr; simp [List.takeWhile, List.dropWhile, hx]
  | cons c a ih =>
    have hc : p c = true := ha c (List.mem_cons_self _ _)
    have ih2 := ih (fun d hd => ha d (List.mem_cons_of_mem _ hd))
    simp only [List.cons_append, List.takeWhile_cons_of_pos hc, List.dropWhile_cons_of_pos hc,
      ih2.1, ih2.2, and_self]

theorem host_of_plain (t : List Char) (h : is_plain_host t) : host_of t = t := by
  simp [host_of, h.2.1]

theorem host_of_bracket (H : List Char) : host_of ('[' :: H ++ [']']) = H := by
  simp [host_of]

/-- The host view of a valid host text followed by the end or a delimiter. -/
theorem host_view_valid (t r : List Char) (ht : is_valid_host t)
    (hr : starts_with_one_of ":/?#".toList r) :
    host_view (t ++ r) = some (t, host_of t, r) := by
  rcases ht with hp | ⟨H, rfl, hH, hnb⟩
  · have hof := host_of_plain t hp
    obtain ⟨hne, hhead, hall⟩ := hp
    cases t with
    | nil => exact absurd rfl hne
    | cons c t1 =>
      have hc : ¬ c = '[' := by
        intro h
        apply hhead
        simp [h]
      have hsplit := takeWhile_append_stop (fun x => !strchr ":/?#".toList x) (c :: t1) r
        (fun d hd => not_strchr_of_free _ d (hall d hd))
        (by
          rcases hr with hr | ⟨x, r2, hr, hx⟩
          · exact Or.inl hr
          · exact Or.inr ⟨x, r2, hr, not_strchr_of_mem _ x hx⟩)
      rw [hof]
      simp only [List.cons_append] at hsplit ⊢
      simp only [host_view, hc, if_false, hsplit.1, hsplit.2]
      simp
  · rw [host_of_bracket]
    have hsplit := takeWhile_append_stop (fun x => !(x == ']')) H (']' :: r)
      (by
        intro d hd
        have : d ≠ ']' := fun h => hnb (h ▸ hd)
        simp [this])
      (Or.inr ⟨']', r, rfl, by simp⟩)
    have e : ('[' :: H ++ [']']) ++ r = '[' :: (H ++ ']' :: r) := by simp
    rw [e]
    simp only [host_view, if_true, hsplit.1, hsplit.2, hH, if_false]

/-- The port view of a colon, a text `P` free of `/`, `?`, `#` and a rest that is empty or
begins with one of them. -/
theorem port_view_colon (P rest : List Char) (hP : ∀ c ∈ P, c ∉ "/?#".toList ∧ c ≠ NUL)
    (hrest : starts_with_one_of "/?#".toList rest) :
    port_view (':' :: (P ++ rest))
      = if P.all is_digit = true ∧ 1 ≤ decimal_value P ∧ decimal_value P ≤ 65535 then
          some (':' :: P, decimal_value P, rest)
        else none := by
  have hsplit := takeWhile_append_stop (fun x => !strchr "/?#".toList x) P rest
    (fun d hd => not_strchr_of_free _ d (hP d hd))
    (by
      rcases hrest with hr | ⟨x, r2, hr, hx⟩
      · exact Or.inl hr
      · exact Or.inr ⟨x, r2, hr, not_strchr_of_mem _ x hx⟩)
  simp only [port_view, if_true, hsplit.1, hsplit.2]

/-- The port view of a text that is empty or begins with `/`, `?` or `#`: port 443. -/
theorem port_view_default (rest : List Char) (hrest : starts_with_one_of "/?#".toList rest) :
    port_view rest = some ([], 443, rest) := by
  rcases hrest with hr | ⟨x, r2, hr, hx⟩
  · subst hr; rfl
  · subst hr
    have hx2 : ¬ x = ':' := by
      intro h
      subst h
      simp at hx
    simp only [port_view, hx2, if_false]

theorem starts_with_colon (s : List Char) : starts_with_one_of ":/?#".toList (':' :: s) :=
  Or.inr ⟨':', s, rfl, by simp⟩

theorem starts_with_mono (r : List Char) (h : starts_with_one_of "/?#".toList r) :
    starts_with_one_of ":/?#".toList r := by
  rcases h with h | ⟨x, r2, hr, hx⟩
  · exact Or.inl h
  · refine Or.inr ⟨x, r2, hr, ?_⟩
    simp only [String.toList, List.mem_cons] at hx ⊢
    exact Or.inr hx

/-- `parse_uri` on scheme, valid host, colon, port text and rest. -/
theorem parse_uri_with_port (t P rest : List Char) (ht : is_valid_host t)
    (hP : ∀ c ∈ P, c ∉ "/?#".toList ∧ c ≠ NUL) (hrest : starts_with_one_of "/?#".toList rest) :
    parse_uri ("https://".toList ++ (t ++ ':' :: (P ++ rest)))
      = if P.all is_digit = true ∧ 1 ≤ decimal_value P ∧ decimal_value P ≤ 65535 then
          some { host := host_of t, port := decimal_value P, path := path_view rest,
                 hostport := t ++ ':' :: P }
        else none := by
  rw [parse_uri_eq_view]
  have h8 : ("https://".toList ++ (t ++ ':' :: (P ++ rest))).take 8 = "https://".toList :=
    List.take_left' rfl
  have hd8 : ("https://".toList ++ (t ++ ':' :: (P ++ rest))).drop 8 = t ++ ':' :: (P ++ rest) :=
    List.drop_left' rfl
  by_cases hc : P.all is_digit = true ∧ 1 ≤ decimal_value P ∧ decimal_value P ≤ 65535
  · simp only [parse_view, h8, hd8, if_true, host_view_valid t _ ht (starts_with_colon _),
      port_view_colon P rest hP hrest, if_pos hc]
  · simp only [parse_view, h8, hd8, if_true, host_view_valid t _ ht (starts_with_colon _),
      port_view_colon P rest hP hrest, if_neg hc]

/-- `parse_uri` on scheme, valid host and a rest without port. -/
theorem parse_uri_without_port (t rest : List Char) (ht : is_valid_host t)
    (hrest : starts_with_one_of "/?#".toList rest) :
    parse_uri ("https://".toList ++ (t ++ rest))
      = some { host := host_of t, port := 443, path := path_view rest, hostport := t } := by
  rw [parse_uri_eq_view]
  have h8 : ("https://".toList ++ (t ++ rest)).take 8 = "https://".toList :=
    List.take_left' rfl
  have hd8 : ("https://".toList ++ (t ++ rest)).drop 8 = t ++ rest := List.drop_left' rfl
  simp only [parse_view, h8, hd8, if_true, host_view_valid t _ ht (starts_with_mono _ hrest),
    port_view_default rest hrest, List.append_nil]

theorem port_intermediates_cons (c : Char) (s : List Char) (port : Int) :
    port_intermediates (c :: s) port
      = if strchr "/?#".toList c then []
        else if '0' ≤ c ∧ c ≤ '9' then
          (port * 10) :: (int32 (port * 10) + ((c.toNat : Int) - ('0'.toNat : Int))) ::
            (if 65535 < int32 (int32 (port * 10) + ((c.toNat : Int) - ('0'.toNat : Int))) then []
             else port_intermediates s
               (int32 (int32 (port * 10) + ((c.toNat : Int) - ('0'.toNat : Int)))))
        else [] := rfl

/-- No `int` operation of the port loop overflows: every unreduced intermediate value lies in
the range of a 32-bit `int`. -/
theorem port_intermediates_in_range (s : List Char) :
    ∀ (acc : Nat), acc ≤ 65535 →
      ∀ v ∈ port_intermediates s (acc : Int), 0 ≤ v ∧ v < 2147483648 := by
  induction s with
  | nil =>
    intro acc _ v hv
    simp [port_intermediates] at hv
  | cons c s ih =>
    intro acc hacc v hv
    rw [port_intermediates_cons] at hv
    by_cases hd : strchr "/?#".toList c = true
    · rw [if_pos hd] at hv
      simp at hv
    · rw [if_neg hd] at hv
      by_cases hdig : '0' ≤ c ∧ c ≤ '9'
      · have h48 : 48 ≤ c.toNat := (zero_le_char c).mp hdig.1
        have h57 : c.toNat ≤ 57 := (char_le_nine c).mp hdig.2
        have hz : '0'.toNat = 48 := rfl
        have e1 : int32 ((acc : Int) * 10) = (acc : Int) * 10 :=
          int32_of_small _ (by omega) (by omega)
        have e2 : int32 ((acc : Int) * 10 + ((c.toNat : Int) - ('0'.toNat : Int)))
            = ((acc * 10 + (c.toNat - '0'.toNat) : Nat) : Int) := by
          rw [int32_of_small _ (by omega) (by omega)]
          omega
        rw [if_pos hdig, e1, e2] at hv
        rcases List.mem_cons.mp hv with hv | hv
        · subst hv; omega
        · rcases List.mem_cons.mp hv with hv | hv
          · subst hv; omega
          · by_cases hbig : (65535 : Int) < ((acc * 10 + (c.toNat - '0'.toNat) : Nat) : Int)
            · rw [if_pos hbig] at hv
              simp at hv
            · rw [if_neg hbig] at hv
              exact ih _ (by omega) v hv
      · rw [if_neg hdig] at hv
        simp at hv

theorem digit_not_delim (c : Char) (h : '0' ≤ c ∧ c ≤ '9') : c ∉ "/?#".toList ∧ c ≠ NUL := by
  have h48 : 48 ≤ c.toNat := (zero_le_char c).mp h.1
  have h57 : c.toNat ≤ 57 := (char_le_nine c).mp h.2
  refine ⟨?_, ?_⟩
  · intro hm
    simp only [String.toList, List.mem_cons, List.mem_singleton, List.not_mem_nil,
      or_false] at hm
    rcases hm with hm | hm | hm <;> (subst hm; revert h48 h57; decide)
  · intro hm
    subst hm
    revert h48
    decide

theorem all_is_digit_iff (P : List Char) :
    P.all is_digit = true ↔ ∀ c ∈ P, '0' ≤ c ∧ c ≤ '9' := by
  simp [List.all_eq_true, is_digit]

theorem path_view_of_slash (p : List Char) :
    path_view ('/' :: p) = ('/' :: p).takeWhile (fun x => !(x == '#')) := by
  have h : ('/' :: p).takeWhile (fun x => !(x == '#'))
      = '/' :: p.takeWhile (fun x => !(x == '#')) := by
    rw [List.takeWhile_cons_of_pos]
    decide
  rw [path_view, if_neg]
  rw [h]
  exact List.cons_ne_nil _ _

/-! ## C4 -/

/-- C4: for a URI made of the scheme, a valid host, a colon, a text `P` free of `/`, `?`, `#`
and a rest that is empty or begins with one of them, `parse_uri` succeeds exactly when `P` is
all decimal digits and its value lies in 1..65535, for `P` of any length; on success the parsed
port is that value; and no `int` operation of the accumulation leaves the 32-bit range. -/
theorem port_accepted_iff (t P rest : List Char) (ht : is_valid_host t)
    (hP : ∀ c ∈ P, c ∉ "/?#".toList ∧ c ≠ NUL)
    (hrest : starts_with_one_of "/?#".toList rest) :
    ((parse_uri ("https://".toList ++ t ++ ":".toList ++ P ++ rest)).isSome = true
        ↔ ((∀ c ∈ P, '0' ≤ c ∧ c ≤ '9') ∧ 1 ≤ decimal_value P ∧ decimal_value P ≤ 65535))
    ∧ (∀ res, parse_uri ("https://".toList ++ t ++ ":".toList ++ P ++ rest) = some res →
        res.port = decimal_value P)
    ∧ (∀ v ∈ port_intermediates (P ++ rest) 0, -2147483648 ≤ v ∧ v < 2147483648) := by
  have e : "https://".toList ++ t ++ ":".toList ++ P ++ rest
      = "https://".toList ++ (t ++ ':' :: (P ++ rest)) := by
    simp only [String.toList, List.append_assoc, List.cons_append, List.nil_append]
  rw [e, parse_uri_with_port t P rest ht hP hrest]
  refine ⟨?_, ?_, ?_⟩
  · by_cases hc : P.all is_digit = true ∧ 1 ≤ decimal_value P ∧ decimal_value P ≤ 65535
    · simp only [if_pos hc, Option.isSome_some, true_iff]
      exact ⟨(all_is_digit_iff P).mp hc.1, hc.2⟩
    · simp only [if_neg hc, Option.isSome_none, Bool.false_eq_true, false_iff]
      exact fun h => hc ⟨(all_is_digit_iff P).mpr h.1, h.2⟩
  · intro res hres
    by_cases hc : P.all is_digit = true ∧ 1 ≤ decimal_value P ∧ decimal_value P ≤ 65535
    · rw [if_pos hc] at hres
      rw [← Option.some.inj hres]
    · rw [if_neg hc] at hres
      exact absurd hres (by simp)
  · intro v hv
    have h := port_intermediates_in_range (P ++ rest) 0 (by omega) v (by simpa using hv)
    omega

/-- Witness of `port_accepted_iff`: host `example.com`, port text `8080`, rest `/x`. -/
theorem port_accepted_iff_witness :
    ((parse_uri ("https://".toList ++ "example.com".toList ++ ":".toList ++ "8080".toList
          ++ "/x".toList)).isSome = true
        ↔ ((∀ c ∈ "8080".toList, '0' ≤ c ∧ c ≤ '9') ∧ 1 ≤ decimal_value "8080".toList
            ∧ decimal_value "8080".toList ≤ 65535))
    ∧ (∀ res, parse_uri ("https://".toList ++ "example.com".toList ++ ":".toList
          ++ "8080".toList ++ "/x".toList) = some res →
        res.port = decimal_value "8080".toList)
    ∧ (∀ v ∈ port_intermediates ("8080".toList ++ "/x".toList) 0,
        -2147483648 ≤ v ∧ v < 2147483648) :=
  port_accepted_iff "example.com".toList "8080".toList "/x".toList
    (Or.inl ⟨by decide, by decide, by decide⟩) (by decide) (Or.inr ⟨'/', "x".toList, rfl, by decide⟩)

/-! ## C5 -/

/-- C5 as stated fails for a bracketed literal whose content holds a `]`: with the host text
`[a]b]` the two URIs parse to different paths, and with the host text `[]]` the URI with `:443`
is rejected. -/
theorem default_port_bracket_content :
    (parse_uri "https://[a]b]:443/".toList).map (fun u => u.path) = some "b]:443/".toList
    ∧ (parse_uri "https://[a]b]/".toList).map (fun u => u.path) = some "b]/".toList
    ∧ (parse_uri "https://[a]b]:443/".toList).map (fun u => u.path)
        ≠ (parse_uri "https://[a]b]/".toList).map (fun u => u.path)
    ∧ parse_uri "https://[]]:443/".toList = none := by
  decide

/-- C5, amended: for every valid host text `t` (a plain host, or a bracketed literal whose
non-empty content holds no `]`) and every rest `r` that is empty or begins with `/`, `?` or `#`,
`parse_uri` succeeds on the URI with `:443` and on the URI without it, with the same host, the
port 443 and the same path. -/
theorem default_port_equivalent (t r : List Char) (ht : is_valid_host t)
    (hr : starts_with_one_of "/?#".toList r) :
    ∃ a b, parse_uri ("https://".toList ++ t ++ ":443".toList ++ r) = some a
      ∧ parse_uri ("https://".toList ++ t ++ r) = some b
      ∧ a.host = host_of t ∧ b.host = host_of t
      ∧ a.port = 443 ∧ b.port = 443
      ∧ a.path = b.path := by
  have e1 : "https://".toList ++ t ++ ":443".toList ++ r
      = "https://".toList ++ (t ++ ':' :: ("443".toList ++ r)) := by
    simp only [String.toList, List.append_assoc, List.cons_append, List.nil_append]
  have e2 : "https://".toList ++ t ++ r = "https://".toList ++ (t ++ r) := by
    simp only [List.append_assoc]
  have hc : "443".toList.all is_digit = true ∧ 1 ≤ decimal_value "443".toList
      ∧ decimal_value "443".toList ≤ 65535 := by decide
  rw [e1, e2, parse_uri_with_port t "443".toList r ht (by decide) hr, if_pos hc,
    parse_uri_without_port t r ht hr]
  exact ⟨_, _, rfl, rfl, rfl, rfl, rfl, rfl, rfl⟩

/-- Witness of `default_port_equivalent`: host `example.com`, rest `/index.html`. -/
theorem default_port_equivalent_witness :
    ∃ a b, parse_uri ("https://".toList ++ "example.com".toList ++ ":443".toList
          ++ "/index.html".toList) = some a
      ∧ parse_uri ("https://".toList ++ "example.com".toList ++ "/index.html".toList) = some b
      ∧ a.host = host_of "example.com".toList ∧ b.host = host_of "example.com".toList
      ∧ a.port = 443 ∧ b.port = 443
      ∧ a.path = b.path :=
  default_port_equivalent "example.com".toList "/index.html".toList
    (Or.inl ⟨by decide, by decide, by decide⟩)
    (Or.inr ⟨'/', "index.html".toList, rfl, by decide⟩)

/-! ## C6 -/

/-- C6: for a URI `https://[H]:P` followed by a path, where `H` is non-empty without `]`, `P` is
a decimal port in 1..65535 and the path begins with `/`, `parse_uri` succeeds with host `H`
(brackets removed), port the value of `P`, the path up to any `#`, and the host:port token
`[H]:P` as written. -/
theorem bracketed_host_with_port (H P path : List Char) (hH : H ≠ []) (hb : ']' ∉ H)
    (hd : ∀ c ∈ P, '0' ≤ c ∧ c ≤ '9') (h1 : 1 ≤ decimal_value P)
    (h2 : decimal_value P ≤ 65535) (hp : path.head? = some '/') :
    parse_uri ("https://[".toList ++ H ++ "]:".toList ++ P ++ path)
      = some { host := H, port := decimal_value P,
               path := path.takeWhile (fun c => !(c == '#')),
               hostport := "[".toList ++ H ++ "]:".toList ++ P } := by
  cases path with
  | nil => simp at hp
  | cons x p =>
    have hx : x = '/' := by simpa using hp
    subst hx
    have e : "https://[".toList ++ H ++ "]:".toList ++ P ++ '/' :: p
        = "https://".toList ++ (('[' :: H ++ [']']) ++ ':' :: (P ++ '/' :: p)) := by
      simp only [String.toList, List.append_assoc, List.cons_append, List.nil_append]
    have e2 : "[".toList ++ H ++ "]:".toList ++ P = ('[' :: H ++ [']']) ++ ':' :: P := by
      simp only [String.toList, List.append_assoc, List.cons_append, List.nil_append]
    have hc : P.all is_digit = true ∧ 1 ≤ decimal_value P ∧ decimal_value P ≤ 65535 :=
      ⟨(all_is_digit_iff P).mpr hd, h1, h2⟩
    rw [e, parse_uri_with_port ('[' :: H ++ [']']) P ('/' :: p) (Or.inr ⟨H, rfl, hH, hb⟩)
      (fun c hcP => digit_not_delim c (hd c hcP)) (Or.inr ⟨'/', p, rfl, by decide⟩),
      if_pos hc, host_of_bracket, path_view_of_slash, e2]

/-- Witness of `bracketed_host_with_port`: `https://[::1]:8443/` gives host `::1`, port 8443,
path `/` and the token `[::1]:8443`. -/
theorem bracketed_host_with_port_witness :
    parse_uri "https://[::1]:8443/".toList
      = some { host := "::1".toList, port := 8443, path := "/".toList,
               hostport := "[::1]:8443".toList } :=
  bracketed_host_with_port "::1".toList "8443".toList "/".toList (by decide) (by decide)
    (by decide) (by decide) (by decide) rfl

/-! ## C7 -/

theorem host_view_some (t host_text h t3 : List Char)
    (hv : host_view t = some (host_text, h, t3)) :
    t = host_text ++ t3 ∧ (host_text = h ∨ host_text = '[' :: h ++ [']']) := by
  cases t with
  | nil => simp [host_view] at hv
  | cons c t1 =>
    by_cases hb : c = '['
    · cases hdw : t1.dropWhile (fun x => !(x == ']')) with
      | nil => simp [host_view, hb, hdw] at hv
      | cons x r =>
        have hx : x = ']' := by
          have := dropWhile_head_false _ _ _ _ hdw
          simpa using this
        subst hx
        have hsplit := List.takeWhile_append_dropWhile (fun x => !(x == ']')) t1
        rw [hdw] at hsplit
        by_cases hH : t1.takeWhile (fun x => !(x == ']')) = []
        · simp [host_view, hb, hdw, hH] at hv
        · simp only [host_view, hb, if_true, hdw, hH, if_false, Option.some.injEq,
            Prod.mk.injEq] at hv
          obtain ⟨h1, h2, h3⟩ := hv
          subst h1 h2 h3
          refine ⟨?_, Or.inr rfl⟩
          simp only [List.cons_append, List.append_assoc, List.nil_append]
          rw [hsplit, hb]
    · by_cases hH : (c :: t1).takeWhile (fun x => !strchr ":/?#".toList x) = []
      · simp only [host_view, hb, if_false, hH, if_true] at hv
        exact absurd hv (by simp)
      · simp only [host_view, hb, if_false, hH, Option.some.injEq, Prod.mk.injEq] at hv
        obtain ⟨h1, h2, h3⟩ := hv
        subst h1 h2 h3
        exact ⟨(List.takeWhile_append_dropWhile _ _).symm, Or.inl rfl⟩

theorem port_view_some (t3 port_text t5 : List Char) (port : Nat)
    (hv : port_view t3 = some (port_text, port, t5)) :
    t3 = port_text ++ t5
      ∧ (port_text = [] ∨ ∃ P, port_text = ':' :: P ∧ (∀ c ∈ P, '0' ≤ c ∧ c ≤ '9')
          ∧ decimal_value P = port) := by
  cases t3 with
  | nil =>
    simp only [port_view, Option.some.injEq, Prod.mk.injEq] at hv
    obtain ⟨h1, _, h3⟩ := hv
    subst h1 h3
    exact ⟨rfl, Or.inl rfl⟩
  | cons c t4 =>
    by_cases hc : c = ':'
    · by_cases hcond : (t4.takeWhile (fun x => !strchr "/?#".toList x)).all is_digit = true
          ∧ 1 ≤ decimal_value (t4.takeWhile (fun x => !strchr "/?#".toList x))
          ∧ decimal_value (t4.takeWhile (fun x => !strchr "/?#".toList x)) ≤ 65535
      · simp only [port_view, hc, if_true, if_pos hcond, Option.some.injEq,
          Prod.mk.injEq] at hv
        obtain ⟨h1, h2, h3⟩ := hv
        subst h1 h2 h3
        refine ⟨?_, Or.inr ⟨_, rfl, (all_is_digit_iff _).mp hcond.1, rfl⟩⟩
        rw [hc, List.cons_append, List.takeWhile_append_dropWhile]
      · simp only [port_view, hc, if_true, if_neg hcond] at hv
        exact absurd hv (by simp)
    · simp only [port_view, hc, if_false, Option.some.injEq, Prod.mk.injEq] at hv
      obtain ⟨h1, _, h3⟩ := hv
      subst h1 h3
      exact ⟨rfl, Or.inl rfl⟩

theorem path_view_ne_nil (t : List Char) : path_view t ≠ [] := by
  unfold path_view
  by_cases h : t.takeWhile (fun x => !(x == '#')) = []
  · rw [if_pos h]
    decide
  · rw [if_neg h]
    exact h

theorem hash_not_mem_path_view (t : List Char) : '#' ∉ path_view t := by
  unfold path_view
  by_cases h : t.takeWhile (fun x => !(x == '#')) = []
  · rw [if_pos h]
    decide
  · rw [if_neg h]
    intro hm
    have := List.mem_takeWhile_imp hm
    simp at this

/-- C7: for every URI that `parse_uri` accepts, the URI is the scheme, the host:port token
(the host, in brackets or not, and either no port text or a colon and decimal digits whose
value is the port) and a tail; the parsed path is that tail up to, and not including, its first
`#` (or all of it when there is none), and `/` when that text is empty; so the path is never
empty and never contains `#`. -/
theorem path_follows_hostport (uri : List Char) (res : mrb_spdy_uri_t)
    (h : parse_uri uri = some res) :
    ∃ tail, uri = "https://".toList ++ res.hostport ++ tail
      ∧ res.path = (if tail.takeWhile (fun c => !(c == '#')) = [] then "/".toList
                    else tail.takeWhile (fun c => !(c == '#')))
      ∧ res.path ≠ [] ∧ '#' ∉ res.path
      ∧ ∃ host_text port_text, res.hostport = host_text ++ port_text
          ∧ (host_text = res.host ∨ host_text = "[".toList ++ res.host ++ "]".toList)
          ∧ (port_text = [] ∨ ∃ P, port_text = ':' :: P ∧ (∀ c ∈ P, '0' ≤ c ∧ c ≤ '9')
              ∧ decimal_value P = res.port) := by
  rw [parse_uri_eq_view] at h
  unfold parse_view at h
  by_cases htk : uri.take 8 = "https://".toList
  · rw [if_pos htk] at h
    cases hhv : host_view (uri.drop 8) with
    | none =>
      rw [hhv] at h
      exact absurd h (by simp)
    | some tr =>
      obtain ⟨host_text, hst, t3⟩ := tr
      rw [hhv] at h
      cases hpv : port_view t3 with
      | none =>
        simp only [hpv] at h
        exact absurd h (by simp)
      | some tr2 =>
        obtain ⟨port_text, port, t5⟩ := tr2
        simp only [hpv, Option.some.injEq] at h
        subst h
        obtain ⟨hs1, hform⟩ := host_view_some _ _ _ _ hhv
        obtain ⟨hs2, hport⟩ := port_view_some _ _ _ _ hpv
        refine ⟨t5, ?_, rfl, path_view_ne_nil t5, hash_not_mem_path_view t5,
          host_text, port_text, rfl, ?_, hport⟩
        · have hu : uri = uri.take 8 ++ uri.drop 8 := (List.take_append_drop 8 uri).symm
          rw [htk, hs1, hs2] at hu
          simp only [List.append_assoc]
          exact hu
        · rcases hform with hf | hf
          · exact Or.inl hf
          · exact Or.inr (by rw [hf]; rfl)
  · rw [if_neg htk] at h
    exact absurd h (by simp)

/-- Witness of `path_follows_hostport`: `https://example.com:8080/a/b#top`. -/
theorem path_follows_hostport_witness :
    ∃ tail, "https://example.com:8080/a/b#top".toList
        = "https://".toList ++ "example.com:8080".toList ++ tail
      ∧ "/a/b".toList = (if tail.takeWhile (fun c => !(c == '#')) = [] then "/".toList
                    else tail.takeWhile (fun c => !(c == '#')))
      ∧ "/a/b".toList ≠ [] ∧ '#' ∉ "/a/b".toList
      ∧ ∃ host_text port_text, "example.com:8080".toList = host_text ++ port_text
          ∧ (host_text = "example.com".toList
              ∨ host_text = "[".toList ++ "example.com".toList ++ "]".toList)
          ∧ (port_text = [] ∨ ∃ P, port_text = ':' :: P ∧ (∀ c ∈ P, '0' ≤ c ∧ c ≤ '9')
              ∧ decimal_value P = 8080) :=
  path_follows_hostport "https://example.com:8080/a/b#top".toList
    { host := "example.com".toList, port := 8080, path := "/a/b".toList,
      hostport := "example.com:8080".toList } (by decide)

/-! ## C11 -/

theorem or_and_self_left (a b : Nat) : (a ||| b) &&& a = a := by
  apply Nat.eq_of_testBit_eq
  intro i
  rw [Nat.testBit_and, Nat.testBit_or]
  cases a.testBit i <;> cases b.testBit i <;> rfl

theorem or_and_self_right (a b : Nat) : (a ||| b) &&& b = b := by
  apply Nat.eq_of_testBit_eq
  intro i
  rw [Nat.testBit_and, Nat.testBit_or]
  cases a.testBit i <;> cases b.testBit i <;> rfl

theorem or_ne_zero_left (a b : Nat) (h : a ≠ 0) : a ||| b ≠ 0 := by
  intro h0
  apply h
  rw [← or_and_self_left a b, h0, Nat.zero_and]

theorem or_ne_zero_right (a b : Nat) (h : b ≠ 0) : a ||| b ≠ 0 := by
  intro h0
  apply h
  rw [← or_and_self_right a b, h0, Nat.zero_and]

/-- The events `mrb_spdy_ctl_poll` stores, in closed form; the other fields are kept. -/
theorem ctl_poll_events (k : poll_consts) (p : pollfd) (conn : mrb_spdy_conn_t) :
    (mrb_spdy_ctl_poll k p conn).events
      = (if conn.session.want_read = true ∨ conn.want_io = WANT_READ then k.POLLIN else 0)
        ||| (if conn.session.want_write = true ∨ conn.want_io = WANT_WRITE then k.POLLOUT
             else 0) := by
  unfold mrb_spdy_ctl_poll
  by_cases hr : conn.session.want_read = true ∨ conn.want_io = WANT_READ
  · by_cases hw : conn.session.want_write = true ∨ conn.want_io = WANT_WRITE
    · simp only [if_pos hr, if_pos hw, Nat.zero_or]
    · simp only [if_pos hr, if_neg hw, Nat.zero_or, Nat.or_zero]
  · by_cases hw : conn.session.want_write = true ∨ conn.want_io = WANT_WRITE
    · simp only [if_neg hr, if_pos hw, Nat.zero_or]
    · simp only [if_neg hr, if_neg hw, Nat.or_zero]

/-- While the session wants to read or to write, the events of `mrb_spdy_ctl_poll` are not
empty. -/
theorem ctl_poll_events_ne_zero (k : poll_consts) (hk : k.separate) (p : pollfd)
    (conn : mrb_spdy_conn_t)
    (ha : conn.session.want_read = true ∨ conn.session.want_write = true) :
    (mrb_spdy_ctl_poll k p conn).events ≠ 0 := by
  rw [ctl_poll_events]
  rcases ha with ha | ha
  · rw [if_pos (Or.inl ha)]
    exact or_ne_zero_left _ _ hk.1
  · rw [if_pos (Or.inl ha)]
    exact or_ne_zero_right _ _ hk.2.1

/-- Every `poll` call of the driver loop waits on a non-empty event set, when the `pollfd` at
the loop head holds non-empty events while the session wants to read or to write. -/
theorem driver_loop_waits_nonempty {ω : Type} (k : poll_consts) (hk : k.separate)
    (env : driver_env ω) (fuel : Nat) :
    ∀ (w : ω) (conn : mrb_spdy_conn_t) (p : pollfd),
      (conn.session.want_read = true ∨ conn.session.want_write = true → p.events ≠ 0) →
      ∀ e ∈ (driver_loop k env fuel w conn p).1, e ≠ 0 := by
  induction fuel with
  | zero =>
    intro w conn p _ e he
    unfold driver_loop at he
    split at he <;> simp at he
  | succ fuel ih =>
    intro w conn p hinv e he
    unfold driver_loop at he
    by_cases ha : conn.session.want_read = true ∨ conn.session.want_write = true
    · have hp := hinv ha
      simp only [if_pos ha] at he
      split at he
      · simp only [List.mem_singleton] at he
        rw [he]; exact hp
      · split at he
        · simp only [List.mem_singleton] at he
          rw [he]; exact hp
        · split at he
          · simp only [List.mem_singleton] at he
            rw [he]; exact hp
          · rcases List.mem_cons.mp he with he | he
            · rw [he]; exact hp
            · exact ih _ _ _ (fun ha2 => ctl_poll_events_ne_zero k hk _ _ ha2) e he
    · simp only [if_neg ha] at he
      simp at he

/-- C11: for every session state and every `want_io`, `mrb_spdy_ctl_poll` requests `POLLIN`
exactly when the session wants to read or `want_io` is `WANT_READ` (all of the mask then, none
of it otherwise), `POLLOUT` exactly when the session wants to write or `want_io` is
`WANT_WRITE`, and nothing else (the events are the union of the requested masks); so every
`poll` call of the driver loop of `mrb_spdy_fetch_uri` waits on a non-empty event set, and
while the session wants to read or to write the loop does call `poll`, first on the events of
the `mrb_spdy_ctl_poll` call that precedes the loop. -/
theorem ctl_poll_requests_exactly_wanted {ω : Type} (k : poll_consts) (hk : k.separate)
    (env : driver_env ω) (fuel : Nat) (w : ω) (conn : mrb_spdy_conn_t) (fd : Int)
    (p : pollfd) :
    ((conn.session.want_read = true ∨ conn.want_io = WANT_READ →
        (mrb_spdy_ctl_poll k p conn).events &&& k.POLLIN = k.POLLIN)
      ∧ (¬ (conn.session.want_read = true ∨ conn.want_io = WANT_READ) →
        (mrb_spdy_ctl_poll k p conn).events &&& k.POLLIN = 0))
    ∧ ((conn.session.want_write = true ∨ conn.want_io = WANT_WRITE →
        (mrb_spdy_ctl_poll k p conn).events &&& k.POLLOUT = k.POLLOUT)
      ∧ (¬ (conn.session.want_write = true ∨ conn.want_io = WANT_WRITE) →
        (mrb_spdy_ctl_poll k p conn).events &&& k.POLLOUT = 0))
    ∧ (mrb_spdy_ctl_poll k p conn).events
        = (if conn.session.want_read = true ∨ conn.want_io = WANT_READ then k.POLLIN else 0)
          ||| (if conn.session.want_write = true ∨ conn.want_io = WANT_WRITE then k.POLLOUT
               else 0)
    ∧ (∀ e ∈ (fetch_uri_driver k env fuel w conn fd p).1, e ≠ 0)
    ∧ (conn.session.want_read = true ∨ conn.session.want_write = true → 0 < fuel →
        (fetch_uri_driver k env fuel w conn fd p).1.head?
          = some (mrb_spdy_ctl_poll k { p with fd := fd } conn).events) := by
  obtain ⟨hin, hout, hsep⟩ := hk
  have hsep2 : k.POLLOUT &&& k.POLLIN = 0 := by rw [Nat.and_comm]; exact hsep
  refine ⟨⟨?_, ?_⟩, ⟨?_, ?_⟩, ctl_poll_events k p conn, ?_, ?_⟩
  · intro hr
    rw [ctl_poll_events, if_pos hr]
    exact or_and_self_left _ _
  · intro hr
    rw [ctl_poll_events, if_neg hr, Nat.zero_or]
    by_cases hw : conn.session.want_write = true ∨ conn.want_io = WANT_WRITE
    · rw [if_pos hw]; exact hsep2
    · rw [if_neg hw]; exact Nat.zero_and _
  · intro hw
    rw [ctl_poll_events, if_pos hw]
    exact or_and_self_right _ _
  · intro hw
    rw [ctl_poll_events, if_neg hw, Nat.or_zero]
    by_cases hr : conn.session.want_read = true ∨ conn.want_io = WANT_READ
    · rw [if_pos hr]; exact hsep
    · rw [if_neg hr]; exact Nat.zero_and _
  · exact driver_loop_waits_nonempty k ⟨hin, hout, hsep⟩ env fuel w conn _
      (fun ha => ctl_poll_events_ne_zero k ⟨hin, hout, hsep⟩ _ _ ha)
  · intro ha hf
    obtain ⟨f, rfl⟩ : ∃ f, fuel = f + 1 := ⟨fuel - 1, by omega⟩
    unfold fetch_uri_driver driver_loop
    simp only [if_pos ha]
    split
    · rfl
    · split
      · rfl
      · split
        · rfl
        · rfl

/-- Witness of `ctl_poll_requests_exactly_wanted`: the Linux masks, the example connection
(the session wants to read) with the TLS layer blocked on a write. -/
theorem ctl_poll_requests_exactly_wanted_witness :
    (mrb_spdy_ctl_poll linux_poll_consts ex_pollfd { ex_conn with want_io := WANT_WRITE }).events
        = 5
    ∧ (∀ e ∈ (fetch_uri_driver linux_poll_consts ex_env 5 ()
          { ex_conn with want_io := WANT_WRITE } 3 ex_pollfd).1, e ≠ 0)
    ∧ (fetch_uri_driver linux_poll_consts ex_env 5 ()
          { ex_conn with want_io := WANT_WRITE } 3 ex_pollfd).1.head? = some 5 :=
  have h := ctl_poll_requests_exactly_wanted linux_poll_consts ⟨by decide, by decide, by decide⟩ ex_env 5 ()
    { ex_conn with want_io := WANT_WRITE } 3 ex_pollfd
  ⟨h.2.2.1, h.2.2.2.1, h.2.2.2.2 (by decide) (by decide)⟩

end MrbSpdy
